import Mathlib

/-!
# Tag resolution in the registry: local tag store and pull-through proxy

A shallow embedding of `registry/storage/tagstore.go`, `registry/proxy/proxytagservice.go`,
the accumulation loop of `registry/handlers/tags.go` and the `TagService` contract of
`tags.go`.

* Go strings are Lean strings; Go compares strings byte-wise, Lean's characters are
  code points, and both orders agree on valid UTF-8.  The comparison used by the code
  is `stringLess`, evaluated on the character lists.
* A Go method with a receiver and side effects on the backing store becomes a function
  that takes the store and returns the result together with the new store.
* A Go `error` is a value of `Error`; a `nil` error is `none`.
* A storage path is kept as the list of its components; it is rendered with `/`
  where the Go code sees it as a string.
-/

namespace distribution

/-! ## Go strings and slices -/

/-- Lexicographic comparison of two character sequences, the `<` of Go strings. -/
def bytesLess : List Char → List Char → Bool
  | [], [] => false
  | [], _ :: _ => true
  | _ :: _, [] => false
  | a :: as, b :: bs =>
    if a.toNat < b.toNat then true
    else if b.toNat < a.toNat then false
    else bytesLess as bs

/-- Go's `a < b` on strings. -/
def stringLess (a b : String) : Bool := bytesLess a.data b.data

/-- Go's `sort.Strings`: the increasing rearrangement of the slice. -/
def sortStrings (entries : List String) : List String :=
  List.insertionSort (fun a b => stringLess b a = false) entries

/-- Go's `path.Split`: splits immediately after the final slash into directory and
file name; without a slash the directory is empty. -/
def pathSplit (path : String) : String × String :=
  let file := (path.data.reverse.takeWhile (fun c => c != '/')).reverse
  (String.mk (path.data.take (path.data.length - file.length)), String.mk file)

/-- Go's builtin `copy(dst, src)`: overwrites the first `min (len dst) (len src)` slots
of `dst` and returns that number. -/
def copy (dst src : List String) : List String × Nat :=
  let n := min dst.length src.length
  (src.take n ++ dst.drop n, n)

/-! ## Errors and descriptors -/

/-- The Go error values that occur in the tag service. -/
inductive Error where
  /-- A value made by `errors.New`. -/
  | New (msg : String)
  /-- The value `io.EOF`. -/
  | EOF
  /-- The type `storagedriver.PathNotFoundError`. -/
  | PathNotFoundError (path : String)
  /-- The type `distribution.ErrRepositoryUnknown`. -/
  | ErrRepositoryUnknown (name : String)
  /-- The type `distribution.ErrTagUnknown`. -/
  | ErrTagUnknown (tag : String)
  /-- The value `distribution.ErrUnsupported`. -/
  | ErrUnsupported
  /-- The failure of a descriptor whose digest is empty or malformed. -/
  | InvalidDescriptor (digest : String)
  /-- A Go panic with its message. -/
  | Panic (msg : String)
  deriving DecidableEq, Repr

/-- The type `distribution.Descriptor`. -/
structure Descriptor where
  MediaType : String
  Size : Int
  Digest : String
  deriving DecidableEq, Repr

/-- The zero value `distribution.Descriptor{}`. -/
def Descriptor.zero : Descriptor := { MediaType := "", Size := 0, Digest := "" }

/-! ## The storage driver (Link Store) -/

/-- A hierarchical storage path, as the list of its components. -/
abbrev Path := List String

/-- The path as the Go string: every component preceded by a slash. -/
def Path.render (p : Path) : String := String.join (p.map (fun c => "/" ++ c))

/-- Modelled from the spec: the storage driver behind `blobStore.driver` (its
implementations are not part of the sources).  A key-path store over hierarchical paths:
`files` holds the single-value entries, `dirs` the directories that exist, and `faults`
the answers of the backing store to the coming calls (`some e` makes the next call fail
with `e` without any effect; an exhausted list means no failure). -/
structure StorageDriver where
  files : List (Path × String)
  dirs : List Path
  faults : List (Option Error)
  deriving DecidableEq, Repr

/-- The empty backing store. -/
def StorageDriver.empty : StorageDriver := { files := [], dirs := [], faults := [] }

/-- Takes the backing store's answer to the next call. -/
def StorageDriver.answer (d : StorageDriver) : Option Error × StorageDriver :=
  (d.faults.head?.join, { d with faults := d.faults.tail })

/-- The content stored at `p`, if `p` is a file. -/
def StorageDriver.content (d : StorageDriver) (p : Path) : Option String :=
  (d.files.find? (fun f => f.1 == p)).map (fun f => f.2)

/-- Whether anything (file or directory) exists at `p`. -/
def StorageDriver.present (d : StorageDriver) (p : Path) : Bool :=
  d.dirs.contains p || d.files.any (fun f => f.1 == p)

/-- Modelled from the spec: `readLink`/`GetContent`, fails with `PathNotFound` if absent. -/
def StorageDriver.GetContent (d : StorageDriver) (p : Path) :
    Except Error String × StorageDriver :=
  match d.answer with
  | (some e, d1) => (.error e, d1)
  | (none, d1) =>
    match d1.content p with
    | some c => (.ok c, d1)
    | none => (.error (.PathNotFoundError p.render), d1)

/-- Modelled from the spec: `putLink`/`PutContent`, create-or-overwrite of the single
value at `p`; the directories above `p` come into existence. -/
def StorageDriver.PutContent (d : StorageDriver) (p : Path) (c : String) :
    Option Error × StorageDriver :=
  match d.answer with
  | (some e, d1) => (some e, d1)
  | (none, d1) =>
    (none, { d1 with
      files := (p, c) :: d1.files.filter (fun f => f.1 != p)
      dirs := d1.dirs ++ (p.inits.dropLast.filter (fun q => !d1.dirs.contains q)) })

/-- Modelled from the spec: `delete`, recursive; fails with `PathNotFound` if absent. -/
def StorageDriver.Delete (d : StorageDriver) (p : Path) : Option Error × StorageDriver :=
  match d.answer with
  | (some e, d1) => (some e, d1)
  | (none, d1) =>
    if d1.present p then
      (none, { d1 with
        files := d1.files.filter (fun f => !p.isPrefixOf f.1)
        dirs := d1.dirs.filter (fun q => !p.isPrefixOf q) })
    else (some (.PathNotFoundError p.render), d1)

/-- Modelled from the spec: `list`, the entries directly under `p` in the driver's own
order, as path strings; fails with `PathNotFound` if the directory does not exist. -/
def StorageDriver.List (d : StorageDriver) (p : Path) :
    Except Error (List String) × StorageDriver :=
  match d.answer with
  | (some e, d1) => (.error e, d1)
  | (none, d1) =>
    if d1.dirs.contains p then
      (.ok (((d1.files.map (fun f => f.1) ++ d1.dirs).filter
        (fun q => p.isPrefixOf q && q.length == p.length + 1)).map Path.render), d1)
    else (.error (.PathNotFoundError p.render), d1)

/-! ## Path specifications and links -/

/-- The path specifications used by the tag store. -/
inductive pathSpec where
  | manifestTagPathSpec (name tag : String)
  | manifestTagCurrentPathSpec (name tag : String)
  | manifestTagIndexEntryLinkPathSpec (name tag revision : String)
  deriving DecidableEq, Repr

/-- Go's `path.Join` on components: empty elements are ignored. -/
def pathJoin (elem : List String) : Path := elem.filter (fun c => c != "")

/-- Modelled from the spec: the syntax check of a digest, `algorithm:hex`. It returns the
two parts of a well-formed digest (the digest package is not part of the sources). -/
def digestPathComponents (dgst : String) : Except Error (List String) :=
  let algorithm := dgst.data.takeWhile (fun c => c != ':')
  let rest := dgst.data.dropWhile (fun c => c != ':')
  if !algorithm.isEmpty && rest.head? == some ':' && !rest.tail.isEmpty
      && algorithm.all Char.isAlphanum && rest.tail.all Char.isAlphanum then
    .ok [String.mk algorithm, String.mk rest.tail]
  else .error (.InvalidDescriptor dgst)

/-- Modelled from the spec: `pathFor`, the deterministic and collision-free naming of
storage paths (`paths.go` is not part of the sources).  The tag path with an empty tag
is the repository's tag namespace, as `Enumerate` uses it. -/
def pathFor : pathSpec → Except Error Path
  | .manifestTagPathSpec name tag =>
    .ok (pathJoin ["docker", "registry", "v2", "repositories", name, "_manifests", "tags", tag])
  | .manifestTagCurrentPathSpec name tag =>
    .ok (pathJoin ["docker", "registry", "v2", "repositories", name, "_manifests", "tags", tag,
      "current", "link"])
  | .manifestTagIndexEntryLinkPathSpec name tag revision =>
    match digestPathComponents revision with
    | .error e => .error e
    | .ok components =>
      .ok (pathJoin (["docker", "registry", "v2", "repositories", name, "_manifests", "tags", tag,
        "index"] ++ components ++ ["link"]))

/-- The type `blobStore`, reduced to its driver. -/
structure blobStore where
  driver : StorageDriver
  deriving DecidableEq, Repr

/-- Modelled from the spec: `blobStore.link`, writes the link to `dgst` at `path`. -/
def blobStore.link (bs : blobStore) (path : Path) (dgst : String) : Option Error × blobStore :=
  let r := bs.driver.PutContent path dgst
  (r.1, { driver := r.2 })

/-- Modelled from the spec: `blobStore.readlink`, reads the digest linked at `path`. -/
def blobStore.readlink (bs : blobStore) (path : Path) : Except Error String × blobStore :=
  let r := bs.driver.GetContent path
  (r.1, { driver := r.2 })

/-! ## The local tag store -/

/-- The type `tagStore`: the repository (by its name) and the blob store. -/
structure tagStore where
  repository : String
  blobStore : blobStore
  deriving DecidableEq, Repr

/-- Modelled from the spec: `linkedBlobStore.linkBlob` of the store returned by
`tagStore.linkedBlobStore(ctx, tag)`: the link path is the index entry of the digest
under the tag, and the link to the digest is written there. -/
def tagStore.linkBlob (ts : tagStore) (tag : String) (desc : Descriptor) :
    Option Error × tagStore :=
  match pathFor (.manifestTagIndexEntryLinkPathSpec ts.repository tag desc.Digest) with
  | .error e => (some e, ts)
  | .ok blobLinkPath =>
    let r := ts.blobStore.link blobLinkPath desc.Digest
    (r.1, { ts with blobStore := r.2 })

/-- The loop of `tagStore.Enumerate` over the sorted entries, with the accumulated
`tagNames`; it returns the buffer, `n` and the error. -/
def tagStore.Enumerate.loop (tags : List String) (last : String) :
    List String → List String → List String × Nat × Option Error
  | [], tagNames =>
    let r := copy tags tagNames
    (r.1, r.2, some .EOF)
  | entry :: entries, tagNames =>
    if tagNames.length = tags.length then
      ((copy tags tagNames).1, tags.length, none)
    else
      let filename := (pathSplit entry).2
      if stringLess last filename then
        tagStore.Enumerate.loop tags last entries (tagNames ++ [filename])
      else
        tagStore.Enumerate.loop tags last entries tagNames

/-- The method `tagStore.Enumerate`: the buffer `tags` after the call, `n`, the error. -/
def tagStore.Enumerate (ts : tagStore) (tags : List String) (last : String) :
    (List String × Nat × Option Error) × tagStore :=
  if tags.length = 0 then
    ((tags, 0, some (.New "no space in slice")), ts)
  else
    match pathFor (.manifestTagPathSpec ts.repository "") with
    | .error e => ((tags, 0, some e), ts)
    | .ok pathSpec =>
      let r := ts.blobStore.driver.List pathSpec
      let ts1 : tagStore := { ts with blobStore := { driver := r.2 } }
      match r.1 with
      | .error (.PathNotFoundError _) => ((tags, 0, some (.ErrRepositoryUnknown ts.repository)), ts1)
      | .error e => ((tags, 0, some e), ts1)
      | .ok entries => (tagStore.Enumerate.loop tags last (sortStrings entries) [], ts1)

/-- The method `tagStore.Tag`. -/
def tagStore.Tag (ts : tagStore) (tag : String) (desc : Descriptor) : Option Error × tagStore :=
  match pathFor (.manifestTagCurrentPathSpec ts.repository tag) with
  | .error e => (some e, ts)
  | .ok currentPath =>
    match ts.linkBlob tag desc with
    | (some e, ts1) => (some e, ts1)
    | (none, ts1) =>
      let r := ts1.blobStore.link currentPath desc.Digest
      (r.1, { ts1 with blobStore := r.2 })

/-- The method `tagStore.Get`. -/
def tagStore.Get (ts : tagStore) (tag : String) : Except Error Descriptor × tagStore :=
  match pathFor (.manifestTagCurrentPathSpec ts.repository tag) with
  | .error e => (.error e, ts)
  | .ok currentPath =>
    let r := ts.blobStore.readlink currentPath
    let ts1 : tagStore := { ts with blobStore := r.2 }
    match r.1 with
    | .error (.PathNotFoundError _) => (.error (.ErrTagUnknown tag), ts1)
    | .error e => (.error e, ts1)
    | .ok revision => (.ok { Descriptor.zero with Digest := revision }, ts1)

/-- The method `tagStore.Untag`. -/
def tagStore.Untag (ts : tagStore) (tag : String) : Option Error × tagStore :=
  match pathFor (.manifestTagPathSpec ts.repository tag) with
  | .error e => (some e, ts)
  | .ok tagPath =>
    let r := ts.blobStore.driver.Delete tagPath
    (r.1, { ts with blobStore := { driver := r.2 } })

/-- The method `tagStore.Lookup`. -/
def tagStore.Lookup (ts : tagStore) (_digest : Descriptor) :
    (List String × Option Error) × tagStore :=
  (([], none), ts)

/-- A tag store on an empty backing store. -/
def tagStore.new (name : String) : tagStore :=
  { repository := name, blobStore := { driver := StorageDriver.empty } }

/-! ## Clients and fixtures -/

deriving instance DecidableEq for Except

/-- The pagination protocol of a client: call `Enumerate` with a fresh buffer of capacity
`N`, first with the cursor given, then with the last name returned, until a call reports
`io.EOF`; the result is the list of the pages returned, one per call.  `fuel` bounds the
number of calls. -/
def enumerateAll (N : Nat) : Nat → tagStore → String → Option (List (List String))
  | 0, _, _ => none
  | fuel + 1, ts, last =>
    match ts.Enumerate (List.replicate N "") last with
    | ((tags, n, none), ts1) =>
      match (tags.take n).getLast? with
      | none => none
      | some l => (enumerateAll N fuel ts1 l).map (fun pages => tags.take n :: pages)
    | ((tags, n, some .EOF), _) => some [tags.take n]
    | ((_, _, some _), _) => none

/-- The page the specification describes: the names strictly greater than the cursor,
in increasing order, cut to the capacity. -/
def specPage (names : List String) (cursor : String) (N : Nat) : List String :=
  ((sortStrings names).filter (fun n => stringLess cursor n)).take N

/-- The descriptor used by `TestTagEnumerate`. -/
def enumerateDesc : Descriptor :=
  { Descriptor.zero with
    Digest := "sha256:eeeeeeeeeeeeeeeeeeeeeeeeeeeeeeeeeeeeeeeeeeeeeeeeeeeeeeeeeeeeeeee" }

/-- The tag names of `TestTagEnumerate`, `a` to `z`. -/
def alphabet : List String :=
  "abcdefghijklmnopqrstuvwxyz".data.map (fun c => String.mk [c])

/-- The store of `TestTagEnumerate`: every letter tagged once on a fresh store. -/
def alphabetStore : tagStore :=
  alphabet.foldl (fun ts tag => (ts.Tag tag enumerateDesc).2) (tagStore.new "a/b")

/-- The directory of the tags of repository `a/b`. -/
def alphabetPath : Path :=
  ["docker", "registry", "v2", "repositories", "a/b", "_manifests", "tags"]

/-! ## The tag service contract, the proxy and the test double -/

/-- The interface `distribution.TagService` over a store of type `σ`: every method takes
the store and returns its results with the store after the call. -/
structure TagService (σ : Type) where
  Get : σ → String → Except Error Descriptor × σ
  Tag : σ → String → Descriptor → Option Error × σ
  Untag : σ → String → Option Error × σ
  Enumerate : σ → List String → String → (List String × Nat × Option Error) × σ
  Lookup : σ → Descriptor → (List String × Option Error) × σ

/-- The local tag store as a tag service (`var _ distribution.TagService = &tagStore{}`). -/
def tagStore.service : TagService tagStore :=
  { Get := tagStore.Get, Tag := tagStore.Tag, Untag := tagStore.Untag,
    Enumerate := tagStore.Enumerate, Lookup := tagStore.Lookup }

/-- The type `proxyTagService`: a local and a remote tag service. -/
structure proxyTagService (L R : Type) where
  localTags : TagService L
  remoteTags : TagService R

/-- The method `proxyTagService.Get`, on the pair of the local and the remote store. -/
def proxyTagService.Get {L R : Type} (pt : proxyTagService L R) (s : L × R) (tag : String) :
    Except Error Descriptor × (L × R) :=
  match pt.remoteTags.Get s.2 tag with
  | (.ok desc, r1) =>
    match pt.localTags.Tag s.1 tag desc with
    | (some err, l1) => (.error err, (l1, r1))
    | (none, l1) => (.ok desc, (l1, r1))
  | (.error _, r1) =>
    match pt.localTags.Get s.1 tag with
    | (.error err, l1) => (.error err, (l1, r1))
    | (.ok desc, l1) => (.ok desc, (l1, r1))

/-- The method `proxyTagService.Tag`. -/
def proxyTagService.Tag {L R : Type} (_pt : proxyTagService L R) (s : L × R) (_tag : String)
    (_desc : Descriptor) : Option Error × (L × R) :=
  (some .ErrUnsupported, s)

/-- The method `proxyTagService.Untag`. -/
def proxyTagService.Untag {L R : Type} (pt : proxyTagService L R) (s : L × R) (tag : String) :
    Option Error × (L × R) :=
  match pt.localTags.Untag s.1 tag with
  | (some err, l1) => (some err, (l1, s.2))
  | (none, l1) => (none, (l1, s.2))

/-- The method `proxyTagService.Enumerate`. -/
def proxyTagService.Enumerate {L R : Type} (_pt : proxyTagService L R) (s : L × R)
    (refs : List String) (_last : String) : (List String × Nat × Option Error) × (L × R) :=
  ((refs, 0, some .ErrUnsupported), s)

/-- The method `proxyTagService.Lookup`. -/
def proxyTagService.Lookup {L R : Type} (_pt : proxyTagService L R) (s : L × R)
    (_digest : Descriptor) : (List String × Option Error) × (L × R) :=
  (([], some .ErrUnsupported), s)

/-- The type `mockTagStore` of the proxy tests: a map from tags to descriptors. -/
structure mockTagStore where
  mapping : List (String × Descriptor)
  deriving DecidableEq, Repr

/-- The method `mockTagStore.Get`. -/
def mockTagStore.Get (m : mockTagStore) (tag : String) : Except Error Descriptor × mockTagStore :=
  match m.mapping.lookup tag with
  | some d => (.ok d, m)
  | none => (.error (.ErrTagUnknown ""), m)

/-- The method `mockTagStore.Tag`: `m.mapping[tag] = desc`. -/
def mockTagStore.Tag (m : mockTagStore) (tag : String) (desc : Descriptor) :
    Option Error × mockTagStore :=
  (none, { mapping := (tag, desc) :: m.mapping.filter (fun e => e.1 != tag) })

/-- The method `mockTagStore.Untag`. -/
def mockTagStore.Untag (m : mockTagStore) (tag : String) : Option Error × mockTagStore :=
  match m.mapping.lookup tag with
  | some _ => (none, { mapping := m.mapping.filter (fun e => e.1 != tag) })
  | none => (some (.ErrTagUnknown ""), m)

/-- The test double as a tag service; `Enumerate` and `Lookup` panic. -/
def mockTagStore.service : TagService mockTagStore :=
  { Get := mockTagStore.Get, Tag := mockTagStore.Tag, Untag := mockTagStore.Untag,
    Enumerate := fun m refs _ => ((refs, 0, some (.Panic "not implemented")), m),
    Lookup := fun m _ => (([], some (.Panic "not implemented")), m) }

/-- The proxy of `testProxyTagService`: both sides are test doubles. -/
def testProxyTagService : proxyTagService mockTagStore mockTagStore :=
  { localTags := mockTagStore.service, remoteTags := mockTagStore.service }

/-- A fresh store of repository `a/b`, as `testTagStore` makes it. -/
def testTagStore : tagStore := tagStore.new "a/b"

/-- The first descriptor of `TestTagStoreTag`. -/
def descA : Descriptor :=
  { Descriptor.zero with
    Digest := "sha256:aaaaaaaaaaaaaaaaaaaaaaaaaaaaaaaaaaaaaaaaaaaaaaaaaaaaaaaaaaaaaaaa" }

/-- The second descriptor of `TestTagStoreTag`. -/
def descB : Descriptor :=
  { Descriptor.zero with
    Digest := "sha256:bbbbbbbbbbbbbbbbbbbbbbbbbbbbbbbbbbbbbbbbbbbbbbbbbbbbbbbbbbbbbbbb" }

/-- A descriptor with a size and a media type besides its digest. -/
def descFull : Descriptor :=
  { MediaType := "application/json", Size := 42,
    Digest := "sha256:aaaaaaaaaaaaaaaaaaaaaaaaaaaaaaaaaaaaaaaaaaaaaaaaaaaaaaaaaaaaaaaa" }

/-! ## Call sequences and further fixtures -/

/-- The store with the coming answers of the backing store set to `faults`. -/
def tagStore.withFaults (ts : tagStore) (faults : List (Option Error)) : tagStore :=
  { ts with blobStore := { driver := { ts.blobStore.driver with faults := faults } } }

/-- The proxy of a registry that mirrors a remote: the local side is the tag store, the
remote side a tag service held in memory. -/
def cachingProxy : proxyTagService tagStore mockTagStore :=
  { localTags := tagStore.service, remoteTags := mockTagStore.service }

/-- A call of `Tag` or `Untag` together with the answers of the backing store to the
driver calls made during it (either write of `Tag` may fail). -/
inductive Call where
  | Tag (tag : String) (desc : Descriptor) (faults : List (Option Error))
  | Untag (tag : String) (faults : List (Option Error))
  deriving DecidableEq, Repr

/-- The tag a call is about. -/
def Call.tag : Call → String
  | .Tag tag _ _ => tag
  | .Untag tag _ => tag

/-- A store whose only tag was removed again: the tag directory exists and is empty. -/
def emptiedStore : tagStore := ((testTagStore.Tag "latest" descA).2.Untag "latest").2

/-- Sixty-four tag names, `aa` to `hh`. -/
def wideNames : List String :=
  ("abcdefgh".data.map (fun a => "abcdefgh".data.map (fun b => String.mk [a, b]))).flatten

/-- A store of repository `a/b` whose tag directory holds the directories of the
sixty-four tags of `wideNames`, exactly one full buffer of the listing endpoint. -/
def wideStore : tagStore :=
  { repository := "a/b",
    blobStore := { driver :=
      { files := [],
        dirs := alphabetPath.inits ++ wideNames.map (fun n => alphabetPath ++ [n]),
        faults := [] } } }

/-! ## The tag listing endpoint -/

/-- The type `tagsAPIResponse`. -/
structure tagsAPIResponse where
  Name : String
  Tags : List String
  deriving DecidableEq, Repr

/-- The error codes that `GetTags` appends to `th.Errors`. -/
inductive apiError where
  /-- The code `v2.ErrorCodeNameUnknown` with the repository name as detail. -/
  | ErrorCodeNameUnknown (name : String)
  /-- The code `errcode.ErrorCodeUnknown` with the error as detail. -/
  | ErrorCodeUnknown (detail : Error)
  deriving DecidableEq, Repr

/-- The accumulation loop of `tagsHandler.GetTags` with its variables `allTags`,
`tagCount` and `last`; `fuel` bounds the number of rounds.  It ends with `allTags` and
`tagCount`, or with the error of `Enumerate`; an index out of range is a panic. -/
def tagsHandler.GetTags.loop {σ : Type} (tagService : TagService σ) :
    Nat → σ → List String → Nat → String → Option (Except Error (List String × Nat) × σ)
  | 0, _, _, _, _ => none
  | fuel + 1, s, allTags, tagCount, last =>
    match tagService.Enumerate s (List.replicate 64 "") last with
    | ((tags, tc, none), s1) =>
      if tagCount + tc = 0 then
        some (.error (.Panic "index out of range"), s1)
      else
        match (allTags ++ tags)[tagCount + tc - 1]? with
        | none => some (.error (.Panic "index out of range"), s1)
        | some l => tagsHandler.GetTags.loop tagService fuel s1 (allTags ++ tags) (tagCount + tc) l
    | ((tags, tc, some .EOF), s1) => some (.ok (allTags ++ tags, tagCount + tc), s1)
    | ((_, _, some err), s1) => some (.error err, s1)

/-- The method `tagsHandler.GetTags` for the repository `name` with the tag service
`tagService`: the response that is encoded, or the error code appended to `th.Errors`. -/
def tagsHandler.GetTags {σ : Type} (tagService : TagService σ) (name : String) (fuel : Nat)
    (s : σ) : Option (Except apiError tagsAPIResponse × σ) :=
  match tagsHandler.GetTags.loop tagService fuel s [] 0 "" with
  | none => none
  | some (.ok (allTags, tagCount), s1) =>
    if tagCount ≤ allTags.length then
      some (.ok { Name := name, Tags := allTags.take tagCount }, s1)
    else
      some (.error (.ErrorCodeUnknown (.Panic "slice bounds out of range")), s1)
  | some (.error (.ErrRepositoryUnknown _), s1) => some (.error (.ErrorCodeNameUnknown name), s1)
  | some (.error err, s1) => some (.error (.ErrorCodeUnknown err), s1)

/-! ## Facts on the order of strings and on sorting -/

theorem bytesLess_iff_lex (a b : List Char) :
    bytesLess a b = true ↔ List.Lex (fun x y : Char => x < y) a b := by
  induction a generalizing b with
  | nil =>
    cases b with
    | nil => simp [bytesLess]
    | cons y ys => simp [bytesLess, List.Lex.nil]
  | cons x xs ih =>
    cases b with
    | nil => simp [bytesLess]
    | cons y ys =>
      simp only [bytesLess]
      by_cases h1 : x.toNat < y.toNat
      · simp only [h1, if_true, true_iff]
        exact List.Lex.rel h1
      · by_cases h2 : y.toNat < x.toNat
        · simp only [h1, h2, if_true, if_false, Bool.false_eq_true, false_iff]
          intro h
          cases h with
          | cons h => exact absurd h2 (lt_irrefl _)
          | rel h => exact h1 h
        · have hxy : x = y := by
            have : x.toNat = y.toNat := by omega
            exact Char.ext (UInt32.ext (by simpa [Char.toNat] using this))
          subst hxy
          simp only [h1, if_false, ih ys]
          exact List.Lex.cons_iff.symm

theorem stringLess_iff (a b : String) : stringLess a b = true ↔ a < b := by
  rw [String.lt_iff_toList_lt]
  exact bytesLess_iff_lex a.data b.data

theorem stringLess_false_iff (a b : String) : stringLess b a = false ↔ a ≤ b := by
  rw [← not_lt, ← stringLess_iff]; simp

theorem sortStrings_perm (l : List String) : (sortStrings l).Perm l :=
  List.perm_insertionSort _ l

theorem sortStrings_sorted (l : List String) : (sortStrings l).Sorted (fun a b => a ≤ b) := by
  have htot : IsTotal String (fun a b => stringLess b a = false) :=
    ⟨fun a b => by simp only [stringLess_false_iff]; exact le_total a b⟩
  have htr : IsTrans String (fun a b => stringLess b a = false) :=
    ⟨fun a b c => by simp only [stringLess_false_iff]; exact le_trans⟩
  have h := List.sorted_insertionSort (fun a b : String => stringLess b a = false) l
  exact List.Pairwise.imp (fun {a b} hab => (stringLess_false_iff a b).1 hab) h

theorem sortStrings_eq_of_sorted_perm {l s : List String} (hp : s.Perm l)
    (hs : s.Sorted (fun a b => a ≤ b)) : sortStrings l = s :=
  List.eq_of_perm_of_sorted ((sortStrings_perm l).trans hp.symm) (sortStrings_sorted l) hs

theorem sortStrings_strict {l : List String} (hn : l.Nodup) :
    (sortStrings l).Sorted (fun a b => a < b) := by
  have hnd : (sortStrings l).Nodup := (sortStrings_perm l).nodup_iff.2 hn
  have hs := sortStrings_sorted l
  exact (List.Pairwise.and hs hnd).imp (fun {a b} h => lt_of_le_of_ne h.1 h.2)

/-! ## Entries of one directory -/

theorem takeWhile_append_stop {α : Type} (p : α → Bool) (l m : List α) (a : α)
    (hl : ∀ x ∈ l, p x = true) (ha : p a = false) :
    (l ++ a :: m).takeWhile p = l := by
  induction l with
  | nil => simp [List.takeWhile, ha]
  | cons x xs ih =>
    have hx : p x = true := hl x (List.mem_cons_self x xs)
    rw [List.cons_append, List.takeWhile_cons, hx, if_pos rfl,
      ih (fun y hy => hl y (List.mem_cons_of_mem x hy))]

theorem pathSplit_child (dir n : String) (hn : '/' ∉ n.data) :
    (pathSplit (dir ++ "/" ++ n)).2 = n := by
  have hdata : (dir ++ "/" ++ n).data = dir.data ++ '/' :: n.data := by
    simp [String.data_append]
  have hrev : (dir ++ "/" ++ n).data.reverse = n.data.reverse ++ '/' :: dir.data.reverse := by
    rw [hdata]; simp
  have htw : (n.data.reverse ++ '/' :: dir.data.reverse).takeWhile (fun c => c != '/')
      = n.data.reverse := by
    apply takeWhile_append_stop
    · intro x hx
      have hx' : x ∈ n.data := List.mem_reverse.1 hx
      have : x ≠ '/' := fun h => hn (h ▸ hx')
      simpa using this
    · simp
  simp only [pathSplit, hrev, htw, List.reverse_reverse]

theorem bytesLess_append_left (p x y : List Char) :
    bytesLess (p ++ x) (p ++ y) = bytesLess x y := by
  induction p with
  | nil => rfl
  | cons c cs ih => simp [bytesLess, ih]

theorem stringLess_child (dir a b : String) :
    stringLess (dir ++ "/" ++ a) (dir ++ "/" ++ b) = stringLess a b := by
  have ha : (dir ++ "/" ++ a).data = (dir.data ++ ['/']) ++ a.data := by
    simp [String.data_append]
  have hb : (dir ++ "/" ++ b).data = (dir.data ++ ['/']) ++ b.data := by
    simp [String.data_append]
  simp only [stringLess, ha, hb, bytesLess_append_left]

theorem sortStrings_children (dir : String) (names entries : List String)
    (hperm : entries.Perm (names.map (fun n => dir ++ "/" ++ n))) :
    sortStrings entries = (sortStrings names).map (fun n => dir ++ "/" ++ n) := by
  apply sortStrings_eq_of_sorted_perm
  · exact ((sortStrings_perm names).map _).trans hperm.symm
  · refine (List.pairwise_map).2 ((sortStrings_sorted names).imp ?_)
    intro a b hab
    rw [← stringLess_false_iff, stringLess_child, stringLess_false_iff]
    exact hab

/-! ## The loop of `Enumerate` -/

theorem copy_fits (tags x : List String) (h : x.length ≤ tags.length) :
    copy tags x = (x ++ tags.drop x.length, x.length) := by
  simp only [copy, Nat.min_eq_right h, List.take_length]

theorem loop_all (tags : List String) (last : String) (es acc : List String)
    (hall : ∀ e ∈ es, stringLess last (pathSplit e).2 = true)
    (hacc : acc.length ≤ tags.length) :
    tagStore.Enumerate.loop tags last es acc =
      if acc.length + es.length ≤ tags.length then
        ((copy tags (acc ++ es.map (fun e => (pathSplit e).2))).1,
          acc.length + es.length, some Error.EOF)
      else
        ((copy tags ((acc ++ es.map (fun e => (pathSplit e).2)).take tags.length)).1,
          tags.length, none) := by
  induction es generalizing acc with
  | nil =>
    simp only [tagStore.Enumerate.loop, List.length_nil, Nat.add_zero, hacc, if_true,
      List.map_nil, List.append_nil]
    rw [copy_fits tags acc hacc]
  | cons e rest ih =>
    have he : stringLess last (pathSplit e).2 = true := hall e (List.mem_cons_self e rest)
    have hrest : ∀ x ∈ rest, stringLess last (pathSplit x).2 = true :=
      fun x hx => hall x (List.mem_cons_of_mem e hx)
    by_cases hfull : acc.length = tags.length
    · have hnot : ¬ acc.length + (e :: rest).length ≤ tags.length := by
        simp only [List.length_cons]; omega
      simp only [tagStore.Enumerate.loop, hfull, if_true]
      rw [if_neg (hfull ▸ hnot)]
      have : (acc ++ List.map (fun e => (pathSplit e).2) (e :: rest)).take tags.length = acc := by
        rw [← hfull, List.take_left]
      rw [this]
    · have hlt : (acc ++ [(pathSplit e).2]).length ≤ tags.length := by
        simp only [List.length_append, List.length_cons, List.length_nil]; omega
      simp only [tagStore.Enumerate.loop, hfull, if_false, he, if_true]
      rw [ih (acc ++ [(pathSplit e).2]) hrest hlt]
      have e1 : (acc ++ [(pathSplit e).2]).length + rest.length
          = acc.length + (e :: rest).length := by
        simp only [List.length_append, List.length_cons, List.length_nil]; omega
      have e2 : acc ++ [(pathSplit e).2] ++ rest.map (fun e => (pathSplit e).2)
          = acc ++ (e :: rest).map (fun e => (pathSplit e).2) := by
        simp only [List.map_cons, List.append_assoc, List.singleton_append]
      rw [e1, e2]

theorem loop_skip (tags : List String) (last : String) (es : List String)
    (hN : 0 < tags.length)
    (hs : (es.map (fun e => (pathSplit e).2)).Sorted (fun a b => a ≤ b)) :
    tagStore.Enumerate.loop tags last es [] =
      tagStore.Enumerate.loop tags last
        (es.filter (fun e => stringLess last (pathSplit e).2)) [] := by
  induction es with
  | nil => rfl
  | cons e rest ih =>
    have hne : ¬ (([] : List String).length = tags.length) := by
      simp only [List.length_nil]; omega
    rw [List.map_cons, List.sorted_cons] at hs
    by_cases he : stringLess last (pathSplit e).2 = true
    · have hall : ∀ x ∈ e :: rest, stringLess last (pathSplit x).2 = true := by
        intro x hx
        rcases List.mem_cons.1 hx with rfl | hx
        · exact he
        · have h1 : (pathSplit e).2 ≤ (pathSplit x).2 :=
            hs.1 _ (List.mem_map.2 ⟨x, hx, rfl⟩)
          exact (stringLess_iff _ _).2 (lt_of_lt_of_le ((stringLess_iff _ _).1 he) h1)
      rw [List.filter_eq_self.2 hall]
    · have hf : (e :: rest).filter (fun e => stringLess last (pathSplit e).2)
          = rest.filter (fun e => stringLess last (pathSplit e).2) := by
        simp [List.filter_cons, he]
      rw [hf, ← ih hs.2]
      simp only [tagStore.Enumerate.loop, hne, if_false, he]
      rfl

theorem loop_sorted (tags : List String) (last : String) (es : List String)
    (hN : 0 < tags.length)
    (hs : (es.map (fun e => (pathSplit e).2)).Sorted (fun a b => a ≤ b)) :
    tagStore.Enumerate.loop tags last es [] =
      if ((es.map (fun e => (pathSplit e).2)).filter (fun n => stringLess last n)).length
          ≤ tags.length then
        ((es.map (fun e => (pathSplit e).2)).filter (fun n => stringLess last n)
            ++ tags.drop
              ((es.map (fun e => (pathSplit e).2)).filter (fun n => stringLess last n)).length,
          ((es.map (fun e => (pathSplit e).2)).filter (fun n => stringLess last n)).length,
          some Error.EOF)
      else
        (((es.map (fun e => (pathSplit e).2)).filter (fun n => stringLess last n)).take
            tags.length, tags.length, none) := by
  have hmap : (es.filter (fun e => stringLess last (pathSplit e).2)).map
      (fun e => (pathSplit e).2)
      = (es.map (fun e => (pathSplit e).2)).filter (fun n => stringLess last n) := by
    rw [List.filter_map]; rfl
  have hlenF : (es.filter (fun e => stringLess last (pathSplit e).2)).length
      = ((es.map (fun e => (pathSplit e).2)).filter (fun n => stringLess last n)).length := by
    rw [← hmap, List.length_map]
  rw [loop_skip tags last es hN hs,
    loop_all tags last _ [] (fun e he => (List.mem_filter.1 he).2) (Nat.zero_le _)]
  simp only [List.length_nil, Nat.zero_add, List.nil_append, hmap, hlenF]
  by_cases hle : ((es.map (fun e => (pathSplit e).2)).filter
      (fun n => stringLess last n)).length ≤ tags.length
  · rw [if_pos hle, if_pos hle, copy_fits _ _ hle]
  · have hlen2 : (((es.map (fun e => (pathSplit e).2)).filter
        (fun n => stringLess last n)).take tags.length).length = tags.length := by
      rw [List.length_take]; omega
    rw [if_neg hle, if_neg hle, copy_fits _ _ (le_of_eq hlen2), hlen2, List.drop_length,
      List.append_nil]

/-! ## One call of `Enumerate` on a listed directory -/

theorem Enumerate_listed (ts : tagStore) (tagsPath : Path) (drv : StorageDriver) (dir : String)
    (names entries tags : List String) (last : String)
    (hN : 1 ≤ tags.length)
    (hpath : pathFor (.manifestTagPathSpec ts.repository "") = .ok tagsPath)
    (hlist : ts.blobStore.driver.List tagsPath = (.ok entries, drv))
    (hperm : entries.Perm (names.map (fun n => dir ++ "/" ++ n)))
    (hslash : ∀ n ∈ names, '/' ∉ n.data) :
    ts.Enumerate tags last =
      (if ((sortStrings names).filter (fun n => stringLess last n)).length ≤ tags.length then
        ((sortStrings names).filter (fun n => stringLess last n)
            ++ tags.drop ((sortStrings names).filter (fun n => stringLess last n)).length,
          ((sortStrings names).filter (fun n => stringLess last n)).length, some Error.EOF)
      else
        (((sortStrings names).filter (fun n => stringLess last n)).take tags.length,
          tags.length, none),
       { ts with blobStore := { driver := drv } }) := by
  have hne : ¬ tags.length = 0 := by omega
  have hfiles : (sortStrings entries).map (fun e => (pathSplit e).2) = sortStrings names := by
    rw [sortStrings_children dir names entries hperm, List.map_map]
    have : ∀ n ∈ sortStrings names,
        ((fun e => (pathSplit e).2) ∘ fun n => dir ++ "/" ++ n) n = id n := by
      intro n hn
      exact pathSplit_child dir n (hslash n ((sortStrings_perm names).mem_iff.1 hn))
    rw [List.map_congr_left this, List.map_id]
  have hsorted : ((sortStrings entries).map (fun e => (pathSplit e).2)).Sorted
      (fun a b => a ≤ b) := by
    rw [hfiles]; exact sortStrings_sorted names
  simp only [tagStore.Enumerate, hne, if_false, hpath, hlist]
  rw [loop_sorted tags last (sortStrings entries) hN hsorted, hfiles]

theorem Enumerate_listed_last (ts : tagStore) (tagsPath : Path) (drv : StorageDriver)
    (dir : String) (names entries tags : List String) (last : String)
    (hN : 1 ≤ tags.length)
    (hpath : pathFor (.manifestTagPathSpec ts.repository "") = .ok tagsPath)
    (hlist : ts.blobStore.driver.List tagsPath = (.ok entries, drv))
    (hperm : entries.Perm (names.map (fun n => dir ++ "/" ++ n)))
    (hslash : ∀ n ∈ names, '/' ∉ n.data)
    (hle : ((sortStrings names).filter (fun n => stringLess last n)).length ≤ tags.length) :
    ts.Enumerate tags last =
      (((sortStrings names).filter (fun n => stringLess last n)
            ++ tags.drop ((sortStrings names).filter (fun n => stringLess last n)).length,
          ((sortStrings names).filter (fun n => stringLess last n)).length, some Error.EOF),
       { ts with blobStore := { driver := drv } }) := by
  rw [Enumerate_listed ts tagsPath drv dir names entries tags last hN hpath hlist hperm hslash,
    if_pos hle]

theorem Enumerate_listed_more (ts : tagStore) (tagsPath : Path) (drv : StorageDriver)
    (dir : String) (names entries tags : List String) (last : String)
    (hN : 1 ≤ tags.length)
    (hpath : pathFor (.manifestTagPathSpec ts.repository "") = .ok tagsPath)
    (hlist : ts.blobStore.driver.List tagsPath = (.ok entries, drv))
    (hperm : entries.Perm (names.map (fun n => dir ++ "/" ++ n)))
    (hslash : ∀ n ∈ names, '/' ∉ n.data)
    (hgt : tags.length < ((sortStrings names).filter (fun n => stringLess last n)).length) :
    ts.Enumerate tags last =
      ((((sortStrings names).filter (fun n => stringLess last n)).take tags.length,
          tags.length, none),
       { ts with blobStore := { driver := drv } }) := by
  rw [Enumerate_listed ts tagsPath drv dir names entries tags last hN hpath hlist hperm hslash,
    if_neg (by omega)]

theorem filter_length_sortStrings (names : List String) (p : String → Bool) :
    ((sortStrings names).filter p).length = (names.filter p).length :=
  ((sortStrings_perm names).filter p).length_eq

theorem sorted_take_lt_drop {l : List String} (hs : l.Sorted (fun a b => a < b)) (n : Nat) :
    ∀ x ∈ l.take n, ∀ y ∈ l.drop n, x < y := by
  have h : (l.take n ++ l.drop n).Pairwise (fun a b => a < b) := by
    rw [List.take_append_drop]; exact hs
  exact (List.pairwise_append.1 h).2.2

/-! ## The pagination protocol -/

theorem driverList_quiet (d : StorageDriver) (p : Path) (hf : d.faults = []) :
    (d.List p).2 = d := by
  cases d with
  | mk files dirs faults =>
    simp only at hf
    subst hf
    simp only [StorageDriver.List, StorageDriver.answer, List.head?_nil, Option.join,
      Option.bind, List.tail_nil]
    split <;> rfl

theorem filter_after_last {F : List String} (hs : F.Sorted (fun a b => a < b)) (N : Nat)
    (l : String) (hl : (F.take N).getLast? = some l) :
    F.filter (fun n => stringLess l n) = F.drop N := by
  have hsplit : F.take N = (F.take N).dropLast ++ [l] :=
    (List.dropLast_append_getLast? l hl).symm
  have hlmem : l ∈ F.take N := by
    rw [hsplit]; exact List.mem_append_right _ (List.mem_singleton_self l)
  have htakeS : (F.take N).Pairwise (fun a b => a < b) :=
    List.Pairwise.sublist (List.take_sublist _ _) hs
  have hbelow : ∀ x ∈ F.take N, ¬ stringLess l x = true := by
    intro x hx hlt
    have hlt' : l < x := (stringLess_iff l x).1 hlt
    rw [hsplit] at hx htakeS
    rcases List.mem_append.1 hx with h | h
    · have := (List.pairwise_append.1 htakeS).2.2 x h l (List.mem_singleton_self l)
      exact lt_asymm this hlt'
    · rw [List.mem_singleton.1 h] at hlt'
      exact lt_irrefl _ hlt'
  have habove : ∀ y ∈ F.drop N, stringLess l y = true :=
    fun y hy => (stringLess_iff l y).2 (sorted_take_lt_drop hs N l hlmem y hy)
  conv_lhs => rw [← List.take_append_drop N F]
  rw [List.filter_append, List.filter_eq_nil_iff.2 hbelow, List.filter_eq_self.2 habove,
    List.nil_append]

theorem filter_narrow (S : List String) (last l : String) (h : stringLess last l = true) :
    S.filter (fun n => stringLess l n)
      = (S.filter (fun n => stringLess last n)).filter (fun n => stringLess l n) := by
  rw [List.filter_filter]
  apply List.filter_congr
  intro x _
  by_cases hx : stringLess l x = true
  · have : stringLess last x = true :=
      (stringLess_iff _ _).2 (lt_trans ((stringLess_iff _ _).1 h) ((stringLess_iff _ _).1 hx))
    simp [hx, this]
  · simp [hx]

theorem enumerateAll_from (ts : tagStore) (tagsPath : Path) (dir : String)
    (names entries : List String) (N : Nat)
    (hN : 1 ≤ N)
    (hpath : pathFor (.manifestTagPathSpec ts.repository "") = .ok tagsPath)
    (hquiet : ts.blobStore.driver.faults = [])
    (hlist : (ts.blobStore.driver.List tagsPath).1 = .ok entries)
    (hperm : entries.Perm (names.map (fun n => dir ++ "/" ++ n)))
    (hnodup : names.Nodup)
    (hslash : ∀ n ∈ names, '/' ∉ n.data) :
    ∀ (fuel : Nat) (last : String),
      ((sortStrings names).filter (fun n => stringLess last n)).length < fuel →
      ∃ pages, enumerateAll N fuel ts last = some pages
        ∧ pages.flatten = (sortStrings names).filter (fun n => stringLess last n)
        ∧ pages.length
          = (((sortStrings names).filter (fun n => stringLess last n)).length - 1) / N + 1 := by
  have hlist' : ts.blobStore.driver.List tagsPath = (.ok entries, ts.blobStore.driver) := by
    exact Prod.ext hlist (driverList_quiet ts.blobStore.driver tagsPath hquiet)
  have hbuf : (List.replicate N "").length = N := List.length_replicate _ _
  intro fuel
  induction fuel with
  | zero => intro last h; omega
  | succ fuel ih =>
    intro last hfuel
    rcases Nat.lt_or_ge N
      ((sortStrings names).filter (fun n => stringLess last n)).length with hgt | hle
    · have hE := Enumerate_listed_more ts tagsPath ts.blobStore.driver dir names entries
        (List.replicate N "") last (by rw [hbuf]; exact hN) hpath hlist' hperm hslash
        (by rw [hbuf]; exact hgt)
      rw [hbuf] at hE
      have hstrict : ((sortStrings names).filter (fun n => stringLess last n)).Sorted
          (fun a b => a < b) := (sortStrings_strict hnodup).filter _
      have hlen2 : (((sortStrings names).filter (fun n => stringLess last n)).take N).length
          = N := by
        rw [List.length_take]; omega
      have hne : ((sortStrings names).filter (fun n => stringLess last n)).take N ≠ [] := by
        intro h
        rw [h] at hlen2
        simp at hlen2
        omega
      obtain ⟨l, hl⟩ : ∃ l, (((sortStrings names).filter
          (fun n => stringLess last n)).take N).getLast? = some l :=
        ⟨_, List.getLast?_eq_getLast _ hne⟩
      have hlF : l ∈ (sortStrings names).filter (fun n => stringLess last n) := by
        have h1 := List.dropLast_append_getLast? l hl
        have : l ∈ ((sortStrings names).filter (fun n => stringLess last n)).take N := by
          rw [← h1]; exact List.mem_append_right _ (List.mem_singleton_self l)
        exact List.mem_of_mem_take this
      have hnext : (sortStrings names).filter (fun n => stringLess l n)
          = ((sortStrings names).filter (fun n => stringLess last n)).drop N := by
        rw [filter_narrow (sortStrings names) last l (List.mem_filter.1 hlF).2]
        exact filter_after_last hstrict N l hl
      have hfuel' : ((sortStrings names).filter (fun n => stringLess l n)).length < fuel := by
        rw [hnext, List.length_drop]; omega
      obtain ⟨pages, hp1, hp2, hp3⟩ := ih l hfuel'
      have hts : ({ ts with blobStore := { driver := ts.blobStore.driver } } : tagStore) = ts := rfl
      refine ⟨((sortStrings names).filter (fun n => stringLess last n)).take N :: pages, ?_, ?_, ?_⟩
      · simp only [enumerateAll, hE, List.take_take, Nat.min_self, hl, hts, hp1, Option.map_some']
      · rw [List.flatten_cons, hp2, hnext, List.take_append_drop]
      · rw [List.length_cons, hp3, hnext, List.length_drop]
        have h1 : ((sortStrings names).filter (fun n => stringLess last n)).length - 1
            = (((sortStrings names).filter (fun n => stringLess last n)).length - N - 1) + N := by
          omega
        rw [h1, Nat.add_div_right _ (by omega : 0 < N)]
    · have hE := Enumerate_listed_last ts tagsPath ts.blobStore.driver dir names entries
        (List.replicate N "") last (by rw [hbuf]; exact hN) hpath hlist' hperm hslash
        (by rw [hbuf]; exact hle)
      refine ⟨[(sortStrings names).filter (fun n => stringLess last n)], ?_, ?_, ?_⟩
      · simp only [enumerateAll, hE, List.take_left]
      · simp
      · rw [List.length_singleton, Nat.div_eq_of_lt (by omega)]

/-- C2. A call of `tagStore.Enumerate` with capacity at least one on a listing of distinct
tag names, given by the driver in any order, returns `n = min N r`, with `r` the number
of names strictly greater than the cursor, and the first `n` slots of the buffer hold the
`n` smallest names strictly greater than the cursor in strictly increasing order. -/
theorem C2_enumerate_single_page (ts : tagStore) (tagsPath : Path) (drv : StorageDriver)
    (dir : String) (names entries tags : List String) (last : String)
    (hN : 1 ≤ tags.length)
    (hpath : pathFor (.manifestTagPathSpec ts.repository "") = .ok tagsPath)
    (hlist : ts.blobStore.driver.List tagsPath = (.ok entries, drv))
    (hperm : entries.Perm (names.map (fun n => dir ++ "/" ++ n)))
    (hnodup : names.Nodup)
    (hslash : ∀ n ∈ names, '/' ∉ n.data) :
    (ts.Enumerate tags last).1.2.1
        = min tags.length (names.filter (fun n => stringLess last n)).length
      ∧ (ts.Enumerate tags last).1.1.take (ts.Enumerate tags last).1.2.1
        = specPage names last tags.length
      ∧ (specPage names last tags.length).Pairwise (fun a b => stringLess a b = true)
      ∧ (∀ x ∈ specPage names last tags.length, x ∈ names ∧ stringLess last x = true)
      ∧ (∀ y ∈ names, stringLess last y = true → y ∉ specPage names last tags.length →
          ∀ x ∈ specPage names last tags.length, stringLess x y = true)
      ∧ last ∉ specPage names last tags.length := by
  have hlen := filter_length_sortStrings names (fun n => stringLess last n)
  have hstrict : ((sortStrings names).filter (fun n => stringLess last n)).Sorted
      (fun a b => a < b) := (sortStrings_strict hnodup).filter _
  have hmem : ∀ x ∈ specPage names last tags.length, x ∈ names ∧ stringLess last x = true := by
    intro x hx
    have hx' := List.mem_filter.1 (List.mem_of_mem_take hx)
    exact ⟨(sortStrings_perm names).mem_iff.1 hx'.1, hx'.2⟩
  have hpage : (ts.Enumerate tags last).1.2.1
        = min tags.length (names.filter (fun n => stringLess last n)).length
      ∧ (ts.Enumerate tags last).1.1.take (ts.Enumerate tags last).1.2.1
        = specPage names last tags.length := by
    rcases Nat.lt_or_ge tags.length
      ((sortStrings names).filter (fun n => stringLess last n)).length with hgt | hle
    · rw [Enumerate_listed_more ts tagsPath drv dir names entries tags last hN hpath hlist hperm
        hslash hgt]
      refine ⟨?_, ?_⟩
      · show tags.length = _
        rw [← hlen]; omega
      · show List.take tags.length (List.take tags.length _) = _
        rw [List.take_take, Nat.min_self]; rfl
    · rw [Enumerate_listed_last ts tagsPath drv dir names entries tags last hN hpath hlist hperm
        hslash hle]
      refine ⟨?_, ?_⟩
      · show List.length _ = _
        rw [← hlen]; omega
      · show List.take (List.length _) (_ ++ _) = _
        rw [List.take_left, specPage, List.take_of_length_le hle]
  refine ⟨hpage.1, hpage.2, ?_, hmem, ?_, ?_⟩
  · exact ((List.Pairwise.sublist (List.take_sublist _ _) hstrict)).imp
      (fun {a b} h => (stringLess_iff a b).2 h)
  · intro y hy hgt hnot x hx
    have hyF : y ∈ (sortStrings names).filter (fun n => stringLess last n) :=
      List.mem_filter.2 ⟨(sortStrings_perm names).mem_iff.2 hy, hgt⟩
    have hyD : y ∈ ((sortStrings names).filter (fun n => stringLess last n)).drop tags.length := by
      rw [← List.take_append_drop tags.length
        ((sortStrings names).filter (fun n => stringLess last n))] at hyF
      rcases List.mem_append.1 hyF with h | h
      · exact absurd h hnot
      · exact h
    exact (stringLess_iff x y).2 (sorted_take_lt_drop hstrict tags.length x hx y hyD)
  · intro h
    have := (stringLess_iff last last).1 (hmem last h).2
    exact lt_irrefl _ this

/-- C3. A call of `tagStore.Enumerate` with capacity at least one on a listing of distinct
tag names reports end-of-stream exactly when at most `N` names are strictly greater than
the cursor (the page then holds all of them, also when exactly `N` exist); otherwise it
returns a nil error with a full page of `N` names. -/
theorem C3_enumerate_end_of_stream (ts : tagStore) (tagsPath : Path) (drv : StorageDriver)
    (dir : String) (names entries tags : List String) (last : String)
    (hN : 1 ≤ tags.length)
    (hpath : pathFor (.manifestTagPathSpec ts.repository "") = .ok tagsPath)
    (hlist : ts.blobStore.driver.List tagsPath = (.ok entries, drv))
    (hperm : entries.Perm (names.map (fun n => dir ++ "/" ++ n)))
    (hslash : ∀ n ∈ names, '/' ∉ n.data) :
    ((ts.Enumerate tags last).1.2.2 = some Error.EOF
        ↔ (names.filter (fun n => stringLess last n)).length ≤ tags.length)
      ∧ ((ts.Enumerate tags last).1.2.2 = some Error.EOF
        ↔ (ts.Enumerate tags last).1.1.take (ts.Enumerate tags last).1.2.1
            = (sortStrings names).filter (fun n => stringLess last n))
      ∧ ((ts.Enumerate tags last).1.2.2 ≠ some Error.EOF →
          (ts.Enumerate tags last).1.2.2 = none
            ∧ (ts.Enumerate tags last).1.2.1 = tags.length
            ∧ ((ts.Enumerate tags last).1.1.take (ts.Enumerate tags last).1.2.1).length
                = tags.length) := by
  have hlen := filter_length_sortStrings names (fun n => stringLess last n)
  rcases Nat.lt_or_ge tags.length
    ((sortStrings names).filter (fun n => stringLess last n)).length with hgt | hle
  · rw [Enumerate_listed_more ts tagsPath drv dir names entries tags last hN hpath hlist hperm
      hslash hgt]
    have hlen2 : (((sortStrings names).filter (fun n => stringLess last n)).take
        tags.length).length = tags.length := by
      rw [List.length_take]; omega
    have hne : ((sortStrings names).filter (fun n => stringLess last n)).take tags.length
        ≠ (sortStrings names).filter (fun n => stringLess last n) := by
      intro h
      rw [h] at hlen2
      omega
    have htake : (((sortStrings names).filter (fun n => stringLess last n)).take
        tags.length).take tags.length
        = ((sortStrings names).filter (fun n => stringLess last n)).take tags.length := by
      rw [List.take_take, Nat.min_self]
    refine ⟨?_, ?_, ?_⟩
    · show (none = some Error.EOF) ↔ _
      constructor
      · intro h; cases h
      · intro h; omega
    · show (none = some Error.EOF) ↔ List.take tags.length (List.take tags.length _) = _
      rw [htake]
      constructor
      · intro h; cases h
      · intro h; exact absurd h hne
    · intro _
      refine ⟨rfl, rfl, ?_⟩
      show (List.take tags.length (List.take tags.length _)).length = _
      rw [htake, hlen2]
  · rw [Enumerate_listed_last ts tagsPath drv dir names entries tags last hN hpath hlist hperm
      hslash hle]
    refine ⟨?_, ?_, ?_⟩
    · show (some Error.EOF = some Error.EOF) ↔ _
      constructor
      · intro _; omega
      · intro _; rfl
    · show (some Error.EOF = some Error.EOF) ↔ List.take (List.length _) (_ ++ _) = _
      rw [List.take_left]
      exact ⟨fun _ => rfl, fun _ => rfl⟩
    · intro h
      exact absurd rfl h

theorem stringLess_empty (n : String) (hn : n ≠ "") : stringLess "" n = true := by
  cases n with
  | mk data =>
    cases data with
    | nil => exact absurd rfl hn
    | cons c cs => rfl

/-- C1. Pagination completeness: on a listing of distinct, non-empty tag names that stays
the same between calls, for every capacity `N` of at least one, calling `Enumerate` from
the cursor `""` and then from the last name returned, until `io.EOF`, ends after finitely
many calls (any bound above the number of names is enough), and the pages put together
are all tag names in strictly increasing order, each exactly once. -/
theorem C1_pagination_complete (ts : tagStore) (tagsPath : Path) (dir : String)
    (names entries : List String) (N fuel : Nat)
    (hN : 1 ≤ N)
    (hpath : pathFor (.manifestTagPathSpec ts.repository "") = .ok tagsPath)
    (hquiet : ts.blobStore.driver.faults = [])
    (hlist : (ts.blobStore.driver.List tagsPath).1 = .ok entries)
    (hperm : entries.Perm (names.map (fun n => dir ++ "/" ++ n)))
    (hnodup : names.Nodup)
    (hvalid : ∀ n ∈ names, n ≠ "" ∧ '/' ∉ n.data)
    (hfuel : names.length < fuel) :
    ∃ pages, enumerateAll N fuel ts "" = some pages
      ∧ pages.flatten = sortStrings names
      ∧ (sortStrings names).Pairwise (fun a b => stringLess a b = true)
      ∧ (sortStrings names).Perm names
      ∧ pages.length = (names.length - 1) / N + 1 := by
  have hall : (sortStrings names).filter (fun n => stringLess "" n) = sortStrings names :=
    List.filter_eq_self.2 (fun n hn =>
      stringLess_empty n (hvalid n ((sortStrings_perm names).mem_iff.1 hn)).1)
  have hlen : (sortStrings names).length = names.length := (sortStrings_perm names).length_eq
  obtain ⟨pages, h1, h2, h3⟩ := enumerateAll_from ts tagsPath dir names entries N hN hpath
    hquiet hlist hperm hnodup (fun n hn => (hvalid n hn).2) fuel ""
    (by rw [hall, hlen]; exact hfuel)
  rw [hall] at h2 h3
  rw [hlen] at h3
  exact ⟨pages, h1, h2,
    (sortStrings_strict hnodup).imp (fun {a b} h => (stringLess_iff a b).2 h),
    sortStrings_perm names, h3⟩

set_option maxRecDepth 100000 in
theorem alphabetStore_facts :
    alphabetStore.repository = "a/b" ∧ alphabetStore.blobStore.driver.faults = [] ∧
    (alphabetStore.blobStore.driver.List alphabetPath).1
      = .ok (alphabet.map (fun n => alphabetPath.render ++ "/" ++ n)) := by decide

theorem alphabetStore_path :
    pathFor (.manifestTagPathSpec alphabetStore.repository "") = .ok alphabetPath := by
  rw [alphabetStore_facts.1]; rfl

theorem pair_eq {α β : Type} (x : α × β) (a : α) (b : β) (h1 : x.1 = a) (h2 : x.2 = b) :
    x = (a, b) := by
  cases x
  simp only at h1 h2
  rw [h1, h2]

theorem alphabetStore_listing :
    alphabetStore.blobStore.driver.List alphabetPath
      = (.ok (alphabet.map (fun n => alphabetPath.render ++ "/" ++ n)),
          alphabetStore.blobStore.driver) :=
  pair_eq _ _ _ alphabetStore_facts.2.2
    (driverList_quiet alphabetStore.blobStore.driver alphabetPath alphabetStore_facts.2.1)

/-- Witness of C1: the store of `TestTagEnumerate` (tags `a` to `z`), capacity 5. -/
theorem C1_pagination_complete_witness :
    ∃ pages, enumerateAll 5 27 alphabetStore "" = some pages
      ∧ pages.flatten = sortStrings alphabet
      ∧ (sortStrings alphabet).Pairwise (fun a b => stringLess a b = true)
      ∧ (sortStrings alphabet).Perm alphabet
      ∧ pages.length = (alphabet.length - 1) / 5 + 1 :=
  C1_pagination_complete alphabetStore alphabetPath alphabetPath.render alphabet
    (alphabet.map (fun n => alphabetPath.render ++ "/" ++ n)) 5 27
    (by decide) alphabetStore_path alphabetStore_facts.2.1 alphabetStore_facts.2.2
    (List.Perm.refl _) (by decide) (by decide) (by decide)

/-- Witness of C2: the second page of five of the store of `TestTagEnumerate`. -/
theorem C2_enumerate_single_page_witness :
    (alphabetStore.Enumerate (List.replicate 5 "") "e").1.2.1
        = min (List.replicate 5 "").length (alphabet.filter (fun n => stringLess "e" n)).length
      ∧ (alphabetStore.Enumerate (List.replicate 5 "") "e").1.1.take
          (alphabetStore.Enumerate (List.replicate 5 "") "e").1.2.1
        = specPage alphabet "e" (List.replicate 5 "").length
      ∧ (specPage alphabet "e" (List.replicate 5 "").length).Pairwise
          (fun a b => stringLess a b = true)
      ∧ (∀ x ∈ specPage alphabet "e" (List.replicate 5 "").length,
          x ∈ alphabet ∧ stringLess "e" x = true)
      ∧ (∀ y ∈ alphabet, stringLess "e" y = true →
          y ∉ specPage alphabet "e" (List.replicate 5 "").length →
          ∀ x ∈ specPage alphabet "e" (List.replicate 5 "").length, stringLess x y = true)
      ∧ "e" ∉ specPage alphabet "e" (List.replicate 5 "").length :=
  C2_enumerate_single_page alphabetStore alphabetPath alphabetStore.blobStore.driver
    alphabetPath.render alphabet (alphabet.map (fun n => alphabetPath.render ++ "/" ++ n))
    (List.replicate 5 "") "e" (by decide) alphabetStore_path alphabetStore_listing (List.Perm.refl _)
    (by decide) (by decide)

/-- Witness of C3: a buffer of five slots on the store of `TestTagEnumerate`, from the
start: 26 names are above the cursor, the error is nil and the page is full. -/
theorem C3_enumerate_end_of_stream_witness :
    ((alphabetStore.Enumerate (List.replicate 5 "") "").1.2.2 = some Error.EOF
        ↔ (alphabet.filter (fun n => stringLess "" n)).length ≤ (List.replicate 5 "").length)
      ∧ ((alphabetStore.Enumerate (List.replicate 5 "") "").1.2.2 = some Error.EOF
        ↔ (alphabetStore.Enumerate (List.replicate 5 "") "").1.1.take
            (alphabetStore.Enumerate (List.replicate 5 "") "").1.2.1
            = (sortStrings alphabet).filter (fun n => stringLess "" n))
      ∧ (alphabetStore.Enumerate (List.replicate 5 "") "").1.2.2 = none
      ∧ (alphabetStore.Enumerate (List.replicate 5 "") "").1.2.1 = (List.replicate 5 "").length
      ∧ ((alphabetStore.Enumerate (List.replicate 5 "") "").1.1.take
          (alphabetStore.Enumerate (List.replicate 5 "") "").1.2.1).length
          = (List.replicate 5 "").length :=
  have h := C3_enumerate_end_of_stream alphabetStore alphabetPath alphabetStore.blobStore.driver
    alphabetPath.render alphabet (alphabet.map (fun n => alphabetPath.render ++ "/" ++ n))
    (List.replicate 5 "") "" (by decide) alphabetStore_path alphabetStore_listing
    (List.Perm.refl _) (by decide)
  ⟨h.1, h.2.1, h.2.2 (fun he => absurd (h.1.1 he) (by decide))⟩

/-! ## Writes and reads of links -/

theorem PutContent_ok (d : StorageDriver) (p : Path) (c : String)
    (h : (d.PutContent p c).1 = none) :
    (d.PutContent p c).2.content p = some c
      ∧ (d.PutContent p c).2.faults = d.faults.tail := by
  unfold StorageDriver.PutContent at h ⊢
  cases ha : d.answer with
  | mk e d1 =>
    have hd1 : d1 = { d with faults := d.faults.tail } := by
      simp only [StorageDriver.answer] at ha
      exact (Prod.mk.inj ha).2.symm
    rw [ha] at h
    cases e with
    | some e => simp at h
    | none =>
      simp only [StorageDriver.content, List.find?_cons, beq_self_eq_true, Option.map_some', hd1,
        and_self]

theorem Tag_ok (ts ts1 : tagStore) (tag : String) (desc : Descriptor) (currentPath : Path)
    (hpath : pathFor (.manifestTagCurrentPathSpec ts.repository tag) = .ok currentPath)
    (h : ts.Tag tag desc = (none, ts1)) :
    ts1.repository = ts.repository
      ∧ ts1.blobStore.driver.content currentPath = some desc.Digest := by
  cases hx : digestPathComponents desc.Digest with
  | error e => simp [tagStore.Tag, tagStore.linkBlob, pathFor, hx] at h
  | ok comps =>
    simp only [pathFor, Except.ok.injEq] at hpath
    subst hpath
    simp only [tagStore.Tag, tagStore.linkBlob, pathFor, hx, blobStore.link] at h
    generalize ts.blobStore.driver.PutContent _ desc.Digest = r at h
    rcases r with ⟨_ | e, d1⟩
    · simp only [Prod.mk.injEq] at h
      obtain ⟨h1, h2⟩ := h
      subst h2
      exact ⟨rfl, (PutContent_ok d1 _ desc.Digest h1).1⟩
    · simp at h

theorem Get_of_content (ts : tagStore) (tag : String) (currentPath : Path) (c : String)
    (hpath : pathFor (.manifestTagCurrentPathSpec ts.repository tag) = .ok currentPath)
    (hanswer : ts.blobStore.driver.answer.1 = none)
    (hc : ts.blobStore.driver.content currentPath = some c) :
    (ts.Get tag).1 = .ok { Descriptor.zero with Digest := c } := by
  have hG : ts.blobStore.driver.GetContent currentPath
      = (.ok c, ts.blobStore.driver.answer.2) := by
    unfold StorageDriver.GetContent
    cases ha : ts.blobStore.driver.answer with
    | mk e d1 =>
      rw [ha] at hanswer
      simp only at hanswer
      subst hanswer
      have hd1 : d1.content currentPath = some c := by
        have : d1 = ts.blobStore.driver.answer.2 := by rw [ha]
        rw [this]; exact hc
      simp only [hd1]
  simp only [tagStore.Get, hpath, blobStore.readlink, hG]

theorem Get_of_absent (ts : tagStore) (tag : String) (currentPath : Path)
    (hpath : pathFor (.manifestTagCurrentPathSpec ts.repository tag) = .ok currentPath)
    (hanswer : ts.blobStore.driver.answer.1 = none)
    (hc : ts.blobStore.driver.content currentPath = none) :
    (ts.Get tag).1 = .error (.ErrTagUnknown tag) := by
  have hG : ts.blobStore.driver.GetContent currentPath
      = (.error (.PathNotFoundError currentPath.render), ts.blobStore.driver.answer.2) := by
    unfold StorageDriver.GetContent
    cases ha : ts.blobStore.driver.answer with
    | mk e d1 =>
      rw [ha] at hanswer
      simp only at hanswer
      subst hanswer
      have hd1 : d1.content currentPath = none := by
        have : d1 = ts.blobStore.driver.answer.2 := by rw [ha]
        rw [this]; exact hc
      simp only [hd1]
  simp only [tagStore.Get, hpath, blobStore.readlink, hG]

/-! ## Tag, Get and Untag on the local store -/

/-- C4 (as stated, refuted). A descriptor with a size and a media type does not come back:
after a successful `Tag` of `descFull`, `Get` succeeds with a descriptor that carries the
digest only, which differs from `descFull`. -/
theorem C4_roundtrip_counterexample :
    (testTagStore.Tag "latest" descFull).1 = none
      ∧ ((testTagStore.Tag "latest" descFull).2.Get "latest").1
          = .ok { MediaType := "", Size := 0, Digest := descFull.Digest }
      ∧ ((testTagStore.Tag "latest" descFull).2.Get "latest").1 ≠ .ok descFull := by
  decide

/-- C4 (amended). Digest round trip: after a successful `Tag(t, d)`, a `Get(t)` that the
backing store answers returns the descriptor with the digest of `d` and zero size and
media type; it is `d` itself when `d` carries nothing but its digest. -/
theorem C4_roundtrip_digest (ts ts1 : tagStore) (tag : String) (desc : Descriptor)
    (htag : ts.Tag tag desc = (none, ts1))
    (hanswer : ts1.blobStore.driver.answer.1 = none) :
    (ts1.Get tag).1 = .ok { MediaType := "", Size := 0, Digest := desc.Digest }
      ∧ (desc.MediaType = "" → desc.Size = 0 → (ts1.Get tag).1 = .ok desc) := by
  obtain ⟨hrepo, hc⟩ := Tag_ok ts ts1 tag desc _ rfl htag
  have hG := Get_of_content ts1 tag _ desc.Digest (by rw [hrepo]; rfl) hanswer hc
  refine ⟨hG, fun h1 h2 => ?_⟩
  rw [hG]
  cases desc with
  | mk m s d =>
    simp only at h1 h2
    subst h1 h2
    rfl

/-- Witness of C4 (amended): `TestTagStoreTag`, `descA` (a digest and nothing else) tagged
as `latest` on a fresh store comes back as it is. -/
theorem C4_roundtrip_digest_witness :
    ((testTagStore.Tag "latest" descA).2.Get "latest").1
        = .ok { MediaType := "", Size := 0, Digest := descA.Digest }
      ∧ ((testTagStore.Tag "latest" descA).2.Get "latest").1 = .ok descA :=
  have h := C4_roundtrip_digest testTagStore (testTagStore.Tag "latest" descA).2 "latest" descA
    (by decide) (by decide)
  ⟨h.1, h.2 rfl rfl⟩

/-- C5. Last writer wins: after a successful `Tag(t, d1)` and then a successful
`Tag(t, d2)`, on any store, a `Get(t)` that the backing store answers succeeds with the
digest of `d2`, not that of `d1` when they differ; after a single successful `Tag(t, d1)`
it yields the digest of `d1`. -/
theorem C5_last_writer_wins (ts ts1 ts2 : tagStore) (tag : String) (d1 d2 : Descriptor)
    (htag1 : ts.Tag tag d1 = (none, ts1))
    (htag2 : ts1.Tag tag d2 = (none, ts2))
    (hanswer : ts2.blobStore.driver.answer.1 = none) :
    (∃ r, (ts2.Get tag).1 = .ok r ∧ r.Digest = d2.Digest
        ∧ (d1.Digest ≠ d2.Digest → r.Digest ≠ d1.Digest))
      ∧ (ts1.blobStore.driver.answer.1 = none →
          ∃ r, (ts1.Get tag).1 = .ok r ∧ r.Digest = d1.Digest) := by
  obtain ⟨hrepo1, hc1⟩ := Tag_ok ts ts1 tag d1 _ rfl htag1
  obtain ⟨hrepo2, hc2⟩ := Tag_ok ts1 ts2 tag d2 _ rfl htag2
  refine ⟨⟨_, Get_of_content ts2 tag _ d2.Digest (by rw [hrepo2]; rfl) hanswer hc2, rfl,
    fun h => fun h' => h h'.symm⟩, fun h => ?_⟩
  exact ⟨_, Get_of_content ts1 tag _ d1.Digest (by rw [hrepo1]; rfl) h hc1, rfl⟩

/-- Witness of C5: `TestTagStoreTag`, `latest` tagged with `descA` and then `descB`. -/
theorem C5_last_writer_wins_witness :
    (∃ r, (((testTagStore.Tag "latest" descA).2.Tag "latest" descB).2.Get "latest").1 = .ok r
        ∧ r.Digest = descB.Digest ∧ r.Digest ≠ descA.Digest)
      ∧ (∃ r, ((testTagStore.Tag "latest" descA).2.Get "latest").1 = .ok r
            ∧ r.Digest = descA.Digest) :=
  have h := C5_last_writer_wins testTagStore (testTagStore.Tag "latest" descA).2
    ((testTagStore.Tag "latest" descA).2.Tag "latest" descB).2 "latest" descA descB
    (by decide) (by decide) (by decide)
  ⟨h.1.elim (fun r hr => ⟨r, hr.1, hr.2.1, hr.2.2 (by decide)⟩), h.2 (by decide)⟩

/-- C6 (the code at the failing input). `Untag` of a tag that was never created, on a
fresh store, returns the storage driver's `PathNotFoundError`, not `ErrTagUnknown`;
the store is unchanged. -/
theorem C6_untag_unknown_raw_error :
    testTagStore.Untag "latest"
        = (some (.PathNotFoundError "/docker/registry/v2/repositories/a/b/_manifests/tags/latest"),
            testTagStore)
      ∧ (testTagStore.Untag "latest").1 ≠ some (.ErrTagUnknown "latest")
      ∧ (testTagStore.Get "latest").1 = .error (.ErrTagUnknown "latest") := by
  decide

theorem digestPathComponents_empty :
    digestPathComponents "" = .error (.InvalidDescriptor "") := by decide

theorem Tag_invalid (ts : tagStore) (tag : String) (desc : Descriptor)
    (hbad : ∀ c, digestPathComponents desc.Digest ≠ .ok c) :
    ts.Tag tag desc = (some (.InvalidDescriptor desc.Digest), ts) := by
  have herr : digestPathComponents desc.Digest = .error (.InvalidDescriptor desc.Digest) := by
    unfold digestPathComponents at hbad ⊢
    simp only at hbad ⊢
    split
    · rename_i h
      simp only [h, if_true] at hbad
      exact absurd rfl (hbad _)
    · rfl
  simp only [tagStore.Tag, tagStore.linkBlob, pathFor, herr]

/-- C7. An invalid descriptor is rejected atomically: `Tag(t, d)` with the digest of `d`
empty or malformed fails with `InvalidDescriptor` and leaves the store as it was, so no
association is created and `Get(t)` returns what it returned before. -/
theorem C7_invalid_descriptor_rejected (ts : tagStore) (tag : String) (desc : Descriptor)
    (hbad : desc.Digest = "" ∨ ∀ c, digestPathComponents desc.Digest ≠ .ok c) :
    (ts.Tag tag desc).1 = some (.InvalidDescriptor desc.Digest)
      ∧ (ts.Tag tag desc).2 = ts
      ∧ (ts.Tag tag desc).2.Get tag = ts.Get tag := by
  have hbad' : ∀ c, digestPathComponents desc.Digest ≠ .ok c := by
    rcases hbad with h | h
    · intro c hc
      rw [h, digestPathComponents_empty] at hc
      cases hc
    · exact h
  rw [Tag_invalid ts tag desc hbad']
  exact ⟨rfl, rfl, rfl⟩

/-- Witness of C7: `TestTagStoreTag`, the zero descriptor tagged as `latest` on a fresh
store, where `Get` reports `ErrTagUnknown` before and after. -/
theorem C7_invalid_descriptor_rejected_witness :
    ((testTagStore.Tag "latest" Descriptor.zero).1
        = some (.InvalidDescriptor Descriptor.zero.Digest)
      ∧ (testTagStore.Tag "latest" Descriptor.zero).2 = testTagStore
      ∧ (testTagStore.Tag "latest" Descriptor.zero).2.Get "latest" = testTagStore.Get "latest")
      ∧ (testTagStore.Get "latest").1 = .error (.ErrTagUnknown "latest") :=
  ⟨C7_invalid_descriptor_rejected testTagStore "latest" Descriptor.zero (Or.inl rfl), by decide⟩

theorem Delete_ok (d : StorageDriver) (p : Path) (h : (d.Delete p).1 = none) :
    (d.Delete p).2.files = d.files.filter (fun f => !p.isPrefixOf f.1)
      ∧ (d.Delete p).2.dirs = d.dirs.filter (fun q => !p.isPrefixOf q) := by
  unfold StorageDriver.Delete at h ⊢
  cases ha : d.answer with
  | mk e d1 =>
    have hd1 : d1 = { d with faults := d.faults.tail } := by
      simp only [StorageDriver.answer] at ha
      exact (Prod.mk.inj ha).2.symm
    rw [ha] at h
    cases e with
    | some e => simp at h
    | none =>
      subst hd1
      simp only at h ⊢
      by_cases hp : StorageDriver.present { d with faults := d.faults.tail } p = true
      · rw [if_pos hp]
        exact ⟨rfl, rfl⟩
      · rw [if_neg hp] at h
        cases h

theorem current_under_tag (name tag : String) :
    (pathJoin ["docker", "registry", "v2", "repositories", name, "_manifests", "tags", tag]).isPrefixOf
      (pathJoin ["docker", "registry", "v2", "repositories", name, "_manifests", "tags", tag,
        "current", "link"]) = true := by
  have h : ["docker", "registry", "v2", "repositories", name, "_manifests", "tags", tag,
      "current", "link"]
      = ["docker", "registry", "v2", "repositories", name, "_manifests", "tags", tag]
        ++ ["current", "link"] := rfl
  rw [List.isPrefixOf_iff_prefix, h, pathJoin, pathJoin, List.filter_append]
  exact List.prefix_append _ _

/-- C8. `Untag` removes the association: after a successful `Tag(t, d)` followed by a
successful `Untag(t)`, a `Get(t)` that the backing store answers fails with
`ErrTagUnknown`, and nothing is left in the store under the path of the tag, neither the
current pointer nor any index entry. -/
theorem C8_untag_removes (ts ts1 ts2 : tagStore) (tag : String) (desc : Descriptor)
    (htag : ts.Tag tag desc = (none, ts1))
    (huntag : ts1.Untag tag = (none, ts2))
    (hanswer : ts2.blobStore.driver.answer.1 = none) :
    (ts2.Get tag).1 = .error (.ErrTagUnknown tag)
      ∧ ∃ tagPath, pathFor (.manifestTagPathSpec ts.repository tag) = .ok tagPath
        ∧ (∀ f ∈ ts2.blobStore.driver.files, tagPath.isPrefixOf f.1 = false)
        ∧ (∀ q ∈ ts2.blobStore.driver.dirs, tagPath.isPrefixOf q = false) := by
  obtain ⟨hrepo1, _⟩ := Tag_ok ts ts1 tag desc _ rfl htag
  simp only [tagStore.Untag, pathFor, Prod.mk.injEq] at huntag
  obtain ⟨hu1, hu2⟩ := huntag
  obtain ⟨hfiles, hdirs⟩ := Delete_ok _ _ hu1
  rw [hrepo1] at hu2 hfiles hdirs
  have hrepo2 : ts2.repository = ts.repository := by rw [← hu2]
  have hdrv : ts2.blobStore.driver = (ts1.blobStore.driver.Delete (pathJoin ["docker",
      "registry", "v2", "repositories", ts.repository, "_manifests", "tags", tag])).2 := by
    rw [← hu2]
  have hgoneF : ∀ f ∈ ts2.blobStore.driver.files,
      (pathJoin ["docker", "registry", "v2", "repositories", ts.repository, "_manifests",
        "tags", tag]).isPrefixOf f.1 = false := by
    intro f hf
    rw [hdrv, hfiles] at hf
    simpa using (List.mem_filter.1 hf).2
  have hgoneD : ∀ q ∈ ts2.blobStore.driver.dirs,
      (pathJoin ["docker", "registry", "v2", "repositories", ts.repository, "_manifests",
        "tags", tag]).isPrefixOf q = false := by
    intro q hq
    rw [hdrv, hdirs] at hq
    simpa using (List.mem_filter.1 hq).2
  refine ⟨?_, pathJoin ["docker", "registry", "v2", "repositories", ts.repository,
    "_manifests", "tags", tag], rfl, hgoneF, hgoneD⟩
  apply Get_of_absent ts2 tag (pathJoin ["docker", "registry", "v2", "repositories",
    ts.repository, "_manifests", "tags", tag, "current", "link"]) (by rw [hrepo2]; rfl) hanswer
  simp only [StorageDriver.content, Option.map_eq_none', List.find?_eq_none]
  intro f hf hfp
  have hfp' : f.1 = pathJoin ["docker", "registry", "v2", "repositories",
      ts.repository, "_manifests", "tags", tag, "current", "link"] := by simpa using hfp
  have := hgoneF f hf
  rw [hfp', current_under_tag] at this
  cases this

/-- Witness of C8: `TestTagStoreUnTag`, `latest` tagged with `descB` and then untagged. -/
theorem C8_untag_removes_witness :
    (((testTagStore.Tag "latest" descB).2.Untag "latest").2.Get "latest").1
        = .error (.ErrTagUnknown "latest")
      ∧ ∃ tagPath, pathFor (.manifestTagPathSpec testTagStore.repository "latest") = .ok tagPath
        ∧ (∀ f ∈ ((testTagStore.Tag "latest" descB).2.Untag "latest").2.blobStore.driver.files,
            tagPath.isPrefixOf f.1 = false)
        ∧ (∀ q ∈ ((testTagStore.Tag "latest" descB).2.Untag "latest").2.blobStore.driver.dirs,
            tagPath.isPrefixOf q = false) :=
  C8_untag_removes testTagStore (testTagStore.Tag "latest" descB).2
    ((testTagStore.Tag "latest" descB).2.Untag "latest").2 "latest" descB
    (by decide) (by decide) (by decide)

/-- C9 (the code at the failing input). After a successful `Tag` of `latest` with `descA`,
which `Get` confirms as the current association, `Lookup(descA)` returns the empty list
with a nil error; `latest` is not in it. -/
theorem C9_lookup_returns_nothing :
    (testTagStore.Tag "latest" descA).1 = none
      ∧ ((testTagStore.Tag "latest" descA).2.Get "latest").1 = .ok descA
      ∧ ((testTagStore.Tag "latest" descA).2.Lookup descA).1 = ([], none)
      ∧ "latest" ∉ ((testTagStore.Tag "latest" descA).2.Lookup descA).1.1 := by
  decide

/-! ## The proxy -/

theorem mockTagStore_roundtrip (m m1 : mockTagStore) (tag : String) (desc : Descriptor)
    (h : mockTagStore.service.Tag m tag desc = (none, m1)) :
    (mockTagStore.service.Get m1 tag).1 = .ok desc := by
  simp only [mockTagStore.service, mockTagStore.Tag, Prod.mk.injEq, true_and] at h
  subst h
  simp [mockTagStore.service, mockTagStore.Get, List.lookup]

/-- C10. Proxy pull-through: whenever `remoteTags.Get(t)` succeeds with `d` and the local
write `localTags.Tag(t, d)` succeeds, `proxyTagService.Get(t)` returns exactly `d`, the
local store is the one left by `localTags.Tag(t, d)`, whatever it held before, and on a
local store that honours the `Tag`/`Get` round trip a following `localTags.Get(t)`
returns `d`. -/
theorem C10_proxy_pull_through {L R : Type} (pt : proxyTagService L R) (s : L × R)
    (tag : String) (d : Descriptor) (r1 : R) (l1 : L)
    (hremote : pt.remoteTags.Get s.2 tag = (.ok d, r1))
    (hlocal : pt.localTags.Tag s.1 tag d = (none, l1)) :
    pt.Get s tag = (.ok d, (l1, r1))
      ∧ (pt.Get s tag).2.1 = (pt.localTags.Tag s.1 tag d).2
      ∧ ((∀ l t e l', pt.localTags.Tag l t e = (none, l') → (pt.localTags.Get l' t).1 = .ok e) →
          (pt.localTags.Get (pt.Get s tag).2.1 tag).1 = .ok d) := by
  have hG : pt.Get s tag = (.ok d, (l1, r1)) := by
    simp only [proxyTagService.Get, hremote, hlocal]
  refine ⟨hG, ?_, fun hrt => ?_⟩
  · rw [hG, hlocal]
  · rw [hG]
    exact hrt s.1 tag d l1 hlocal

/-- Witness of C10: the remote holds `remote -> {Size: 43}`, the local store has cached
`remote -> {Size: 42}`; the proxy returns the remote value and the local store holds it
afterwards. -/
theorem C10_proxy_pull_through_witness :
    testProxyTagService.Get
        ({ mapping := [("remote", { Descriptor.zero with Size := 42 })] },
          { mapping := [("remote", { Descriptor.zero with Size := 43 })] }) "remote"
        = (.ok { Descriptor.zero with Size := 43 },
            ({ mapping := [("remote", { Descriptor.zero with Size := 43 })] },
              { mapping := [("remote", { Descriptor.zero with Size := 43 })] }))
      ∧ (testProxyTagService.Get
          ({ mapping := [("remote", { Descriptor.zero with Size := 42 })] },
            { mapping := [("remote", { Descriptor.zero with Size := 43 })] }) "remote").2.1
        = (testProxyTagService.localTags.Tag
            ({ mapping := [("remote", { Descriptor.zero with Size := 42 })] } : mockTagStore)
            "remote" { Descriptor.zero with Size := 43 }).2
      ∧ (testProxyTagService.localTags.Get (testProxyTagService.Get
            ({ mapping := [("remote", { Descriptor.zero with Size := 42 })] },
              { mapping := [("remote", { Descriptor.zero with Size := 43 })] }) "remote").2.1
            "remote").1 = .ok { Descriptor.zero with Size := 43 } :=
  have h := C10_proxy_pull_through testProxyTagService
    ({ mapping := [("remote", { Descriptor.zero with Size := 42 })] },
      { mapping := [("remote", { Descriptor.zero with Size := 43 })] }) "remote"
    { Descriptor.zero with Size := 43 }
    { mapping := [("remote", { Descriptor.zero with Size := 43 })] }
    { mapping := [("remote", { Descriptor.zero with Size := 43 })] }
    (by decide) (by decide)
  ⟨h.1, h.2.1, h.2.2 (fun l t e l1 hl => mockTagStore_roundtrip l l1 t e hl)⟩

/-! ## The proxy: fallback, write failure, untag, unsupported methods -/

/-- C11. Proxy fallback: whenever `remoteTags.Get(t)` fails, with whatever error, the
result of `proxyTagService.Get(t)` is the result of `localTags.Get(t)` (the cached
descriptor or the local failure); the remote error is dropped, and the only call on the
local store is that `Get`, so a local store whose `Get` does not write is unchanged. -/
theorem C11_proxy_fallback {L R : Type} (pt : proxyTagService L R) (s : L × R) (tag : String)
    (e : Error) (r1 : R)
    (hremote : pt.remoteTags.Get s.2 tag = (.error e, r1)) :
    (pt.Get s tag).1 = (pt.localTags.Get s.1 tag).1
      ∧ (pt.Get s tag).2 = ((pt.localTags.Get s.1 tag).2, r1)
      ∧ ((∀ l t, (pt.localTags.Get l t).2 = l) → (pt.Get s tag).2.1 = s.1) := by
  have hG : pt.Get s tag = ((pt.localTags.Get s.1 tag).1, ((pt.localTags.Get s.1 tag).2, r1)) := by
    simp only [proxyTagService.Get, hremote]
    rcases pt.localTags.Get s.1 tag with ⟨_ | _, l1⟩ <;> rfl
  refine ⟨by rw [hG], by rw [hG], fun hro => ?_⟩
  rw [hG]
  exact hro s.1 tag

/-- Witness of C11: the remote knows no tag, the local store has cached
`remote -> {Size: 42}`; the proxy answers with the cached descriptor and the local store
is as before. -/
theorem C11_proxy_fallback_witness :
    (testProxyTagService.Get
        ({ mapping := [("remote", { Descriptor.zero with Size := 42 })] }, { mapping := [] })
        "remote").1
        = (testProxyTagService.localTags.Get
            ({ mapping := [("remote", { Descriptor.zero with Size := 42 })] } : mockTagStore)
            "remote").1
      ∧ (testProxyTagService.Get
          ({ mapping := [("remote", { Descriptor.zero with Size := 42 })] }, { mapping := [] })
          "remote").2
        = ((testProxyTagService.localTags.Get
            ({ mapping := [("remote", { Descriptor.zero with Size := 42 })] } : mockTagStore)
            "remote").2, { mapping := [] })
      ∧ (testProxyTagService.Get
          ({ mapping := [("remote", { Descriptor.zero with Size := 42 })] }, { mapping := [] })
          "remote").2.1
        = { mapping := [("remote", { Descriptor.zero with Size := 42 })] }
      ∧ (testProxyTagService.Get
          ({ mapping := [("remote", { Descriptor.zero with Size := 42 })] }, { mapping := [] })
          "remote").1 = .ok { Descriptor.zero with Size := 42 } :=
  have h := C11_proxy_fallback testProxyTagService
    ({ mapping := [("remote", { Descriptor.zero with Size := 42 })] }, { mapping := [] })
    "remote" (.ErrTagUnknown "") { mapping := [] } (by decide)
  ⟨h.1, h.2.1, h.2.2 (fun l t => by
      simp only [testProxyTagService, mockTagStore.service, mockTagStore.Get]
      split <;> rfl), by decide⟩

/-- C12. A failure of the cache write is surfaced: if `remoteTags.Get(t)` succeeds with
`d` but `localTags.Tag(t, d)` fails with `e`, then `proxyTagService.Get(t)` fails with
`e` and does not return the remote descriptor. -/
theorem C12_proxy_cache_write_failure {L R : Type} (pt : proxyTagService L R) (s : L × R)
    (tag : String) (d : Descriptor) (r1 : R) (e : Error) (l1 : L)
    (hremote : pt.remoteTags.Get s.2 tag = (.ok d, r1))
    (hlocal : pt.localTags.Tag s.1 tag d = (some e, l1)) :
    pt.Get s tag = (.error e, (l1, r1)) ∧ (pt.Get s tag).1 ≠ .ok d := by
  have hG : pt.Get s tag = (.error e, (l1, r1)) := by
    simp only [proxyTagService.Get, hremote, hlocal]
  refine ⟨hG, ?_⟩
  rw [hG]
  intro h
  cases h

/-- Witness of C12: the remote holds `remote -> {Size: 42}`, a descriptor without digest,
which the local tag store refuses to tag. -/
theorem C12_proxy_cache_write_failure_witness :
    cachingProxy.Get
        (testTagStore, { mapping := [("remote", { Descriptor.zero with Size := 42 })] }) "remote"
        = (.error (.InvalidDescriptor ""),
            (testTagStore, { mapping := [("remote", { Descriptor.zero with Size := 42 })] }))
      ∧ (cachingProxy.Get
          (testTagStore, { mapping := [("remote", { Descriptor.zero with Size := 42 })] })
          "remote").1 ≠ .ok { Descriptor.zero with Size := 42 } :=
  C12_proxy_cache_write_failure cachingProxy
    (testTagStore, { mapping := [("remote", { Descriptor.zero with Size := 42 })] }) "remote"
    { Descriptor.zero with Size := 42 }
    { mapping := [("remote", { Descriptor.zero with Size := 42 })] }
    (.InvalidDescriptor "") testTagStore (by decide) (by decide)

theorem mockTagStore_untag_get (m m1 : mockTagStore) (tag : String)
    (h : mockTagStore.service.Untag m tag = (none, m1)) :
    ∃ e, (mockTagStore.service.Get m1 tag).1 = .error e := by
  have hnone : m1.mapping.lookup tag = none := by
    simp only [mockTagStore.service, mockTagStore.Untag] at h
    split at h
    · simp only [Prod.mk.injEq, true_and] at h
      subst h
      simp only [List.lookup_eq_none_iff, List.mem_filter]
      intro p hp
      have h2 : ¬ p.1 = tag := by simpa using hp.2
      simpa using fun h : tag = p.1 => h2 h.symm
    · simp at h
  refine ⟨.ErrTagUnknown "", ?_⟩
  simp only [mockTagStore.service, mockTagStore.Get, hnone]

/-- C13. Proxy untag isolation: `proxyTagService.Untag(t)` returns the result of
`localTags.Untag(t)` and leaves the remote store as it is.  For a tag held by the remote
(`remoteTags.Get(t)` gives `d`) and by the local cache (`localTags.Untag(t)` succeeds), on
a local store where `Get` fails after `Untag`: the remote still answers `d`, the local
`Get(t)` fails, and a following `proxyTagService.Get(t)` succeeds with `d` and writes it
to the local store again. -/
theorem C13_proxy_untag_isolation {L R : Type} (pt : proxyTagService L R) (s : L × R)
    (tag : String) :
    (pt.Untag s tag).1 = (pt.localTags.Untag s.1 tag).1
      ∧ (pt.Untag s tag).2 = ((pt.localTags.Untag s.1 tag).2, s.2)
      ∧ ∀ (d : Descriptor) (r1 : R) (l1 l2 : L),
          pt.remoteTags.Get s.2 tag = (.ok d, r1) →
          pt.localTags.Untag s.1 tag = (none, l1) →
          (∀ l t l', pt.localTags.Untag l t = (none, l') →
            ∃ e, (pt.localTags.Get l' t).1 = .error e) →
          pt.localTags.Tag l1 tag d = (none, l2) →
          pt.Untag s tag = (none, (l1, s.2))
            ∧ pt.remoteTags.Get (pt.Untag s tag).2.2 tag = (.ok d, r1)
            ∧ (∃ e, (pt.localTags.Get (pt.Untag s tag).2.1 tag).1 = .error e)
            ∧ pt.Get (pt.Untag s tag).2 tag = (.ok d, (l2, r1)) := by
  refine ⟨?_, ?_, ?_⟩
  · simp only [proxyTagService.Untag]
    rcases pt.localTags.Untag s.1 tag with ⟨_ | _, l1⟩ <;> rfl
  · simp only [proxyTagService.Untag]
    rcases pt.localTags.Untag s.1 tag with ⟨_ | _, l1⟩ <;> rfl
  · intro d r1 l1 l2 hremote huntag hlaw hretag
    have hU : pt.Untag s tag = (none, (l1, s.2)) := by
      simp only [proxyTagService.Untag, huntag]
    refine ⟨hU, ?_, ?_, ?_⟩
    · rw [hU]; exact hremote
    · rw [hU]; exact hlaw s.1 tag l1 huntag
    · rw [hU]
      simp only [proxyTagService.Get, hremote, hretag]

/-- Witness of C13: `TestGet`, the tag `remote` held by both sides with `{Size: 43}`. -/
theorem C13_proxy_untag_isolation_witness :
    testProxyTagService.Untag
          ({ mapping := [("remote", { Descriptor.zero with Size := 43 })] },
            { mapping := [("remote", { Descriptor.zero with Size := 43 })] }) "remote"
        = (none, ({ mapping := [] },
            { mapping := [("remote", { Descriptor.zero with Size := 43 })] }))
      ∧ testProxyTagService.remoteTags.Get (testProxyTagService.Untag
          ({ mapping := [("remote", { Descriptor.zero with Size := 43 })] },
            { mapping := [("remote", { Descriptor.zero with Size := 43 })] }) "remote").2.2
          "remote"
        = (.ok { Descriptor.zero with Size := 43 },
            { mapping := [("remote", { Descriptor.zero with Size := 43 })] })
      ∧ (∃ e, (testProxyTagService.localTags.Get (testProxyTagService.Untag
          ({ mapping := [("remote", { Descriptor.zero with Size := 43 })] },
            { mapping := [("remote", { Descriptor.zero with Size := 43 })] }) "remote").2.1
          "remote").1 = .error e)
      ∧ testProxyTagService.Get (testProxyTagService.Untag
          ({ mapping := [("remote", { Descriptor.zero with Size := 43 })] },
            { mapping := [("remote", { Descriptor.zero with Size := 43 })] }) "remote").2
          "remote"
        = (.ok { Descriptor.zero with Size := 43 },
            ({ mapping := [("remote", { Descriptor.zero with Size := 43 })] },
              { mapping := [("remote", { Descriptor.zero with Size := 43 })] })) :=
  (C13_proxy_untag_isolation testProxyTagService
    ({ mapping := [("remote", { Descriptor.zero with Size := 43 })] },
      { mapping := [("remote", { Descriptor.zero with Size := 43 })] }) "remote").2.2
    { Descriptor.zero with Size := 43 }
    { mapping := [("remote", { Descriptor.zero with Size := 43 })] }
    { mapping := [] }
    { mapping := [("remote", { Descriptor.zero with Size := 43 })] }
    (by decide) (by decide)
    (fun l t l1 hl => mockTagStore_untag_get l l1 t hl) (by decide)

/-- C18. The unsupported surface of the proxy: for all arguments and all states of the
local and the remote service, `Tag`, `Enumerate` and `Lookup` of the proxy fail with
`ErrUnsupported`, `Enumerate` with `n = 0` and the buffer untouched, `Lookup` with the
empty list; both stores are as before and the outcome does not depend on the two
services. -/
theorem C18_proxy_unsupported {L R : Type} (pt pt' : proxyTagService L R) (s : L × R)
    (tag last : String) (desc : Descriptor) (refs : List String) :
    pt.Tag s tag desc = (some .ErrUnsupported, s)
      ∧ pt.Enumerate s refs last = ((refs, 0, some .ErrUnsupported), s)
      ∧ pt.Lookup s desc = (([], some .ErrUnsupported), s)
      ∧ pt.Tag s tag desc = pt'.Tag s tag desc
      ∧ pt.Enumerate s refs last = pt'.Enumerate s refs last
      ∧ pt.Lookup s desc = pt'.Lookup s desc :=
  ⟨rfl, rfl, rfl, rfl, rfl, rfl⟩

/-! ## Error translation in `Get` and `Enumerate` -/

/-- C14. Error translation of `Get`: when reading the current pointer of the tag fails
with the path-not-found error of the Link Store, `tagStore.Get` fails with
`ErrTagUnknown` carrying the tag; when it fails with any other error, `Get` fails with
exactly that error; when it succeeds, `Get` succeeds with the digest read. -/
theorem C14_get_error_translation (ts : tagStore) (tag : String) (currentPath : Path)
    (hpath : pathFor (.manifestTagCurrentPathSpec ts.repository tag) = .ok currentPath) :
    (∀ p, (ts.blobStore.readlink currentPath).1 = .error (.PathNotFoundError p) →
        (ts.Get tag).1 = .error (.ErrTagUnknown tag))
      ∧ (∀ e, (ts.blobStore.readlink currentPath).1 = .error e →
        (∀ p, e ≠ .PathNotFoundError p) → (ts.Get tag).1 = .error e)
      ∧ (∀ revision, (ts.blobStore.readlink currentPath).1 = .ok revision →
        (ts.Get tag).1 = .ok { Descriptor.zero with Digest := revision }) := by
  refine ⟨?_, ?_, ?_⟩
  · intro p h
    simp only [tagStore.Get, hpath, h]
  · intro e h hne
    cases e <;> first | exact absurd rfl (hne _) | simp only [tagStore.Get, hpath, h]
  · intro revision h
    simp only [tagStore.Get, hpath, h]

/-- Witness of C14: on a fresh store the read reports path-not-found and `Get` fails with
`ErrTagUnknown`; on a store whose backing store answers the read with another error,
`Get` fails with that error; after `Tag`, `Get` succeeds. -/
theorem C14_get_error_translation_witness :
    (testTagStore.Get "latest").1 = .error (.ErrTagUnknown "latest")
      ∧ (((testTagStore.Tag "latest" descA).2.withFaults
          [some (.New "connection reset")]).Get "latest").1 = .error (.New "connection reset")
      ∧ ((testTagStore.Tag "latest" descA).2.Get "latest").1 = .ok descA :=
  ⟨(C14_get_error_translation testTagStore "latest" _ rfl).1
      "/docker/registry/v2/repositories/a/b/_manifests/tags/latest/current/link" (by decide),
    (C14_get_error_translation ((testTagStore.Tag "latest" descA).2.withFaults
      [some (.New "connection reset")]) "latest" _ rfl).2.1 (.New "connection reset")
      (by decide) (fun p h => by cases h),
    (C14_get_error_translation (testTagStore.Tag "latest" descA).2 "latest" _ rfl).2.2
      descA.Digest (by decide)⟩

theorem loop_error (tags : List String) (last : String) (es acc : List String) :
    (tagStore.Enumerate.loop tags last es acc).2.2 = none
      ∨ (tagStore.Enumerate.loop tags last es acc).2.2 = some .EOF := by
  induction es generalizing acc with
  | nil => exact Or.inr rfl
  | cons e rest ih =>
    simp only [tagStore.Enumerate.loop]
    split
    · exact Or.inl rfl
    · split
      · exact ih _
      · exact ih _

/-- C15. `Enumerate` on a missing repository: with a capacity of at least one and any
cursor, when listing the tag namespace reports path-not-found, `Enumerate` fails with
`ErrRepositoryUnknown` naming the repository and `n = 0`; any other listing error is
returned unchanged with `n = 0`; and for a driver that does not itself report
`ErrRepositoryUnknown`, `Enumerate` fails with it only if the listing reported
path-not-found. -/
theorem C15_enumerate_missing_repository (ts : tagStore) (tags : List String) (last : String)
    (tagsPath : Path)
    (hN : 1 ≤ tags.length)
    (hpath : pathFor (.manifestTagPathSpec ts.repository "") = .ok tagsPath) :
    (∀ p, (ts.blobStore.driver.List tagsPath).1 = .error (.PathNotFoundError p) →
        (ts.Enumerate tags last).1 = (tags, 0, some (.ErrRepositoryUnknown ts.repository)))
      ∧ (∀ e, (ts.blobStore.driver.List tagsPath).1 = .error e →
        (∀ p, e ≠ .PathNotFoundError p) → (ts.Enumerate tags last).1 = (tags, 0, some e))
      ∧ ((∀ name, (ts.blobStore.driver.List tagsPath).1 ≠ .error (.ErrRepositoryUnknown name)) →
        ((ts.Enumerate tags last).1.2.2 = some (.ErrRepositoryUnknown ts.repository) ↔
          ∃ p, (ts.blobStore.driver.List tagsPath).1 = .error (.PathNotFoundError p))) := by
  have hne : ¬ tags.length = 0 := by omega
  have h1 : ∀ p, (ts.blobStore.driver.List tagsPath).1 = .error (.PathNotFoundError p) →
      (ts.Enumerate tags last).1 = (tags, 0, some (.ErrRepositoryUnknown ts.repository)) := by
    intro p h
    simp only [tagStore.Enumerate, hne, if_false, hpath, h]
  have h2 : ∀ e, (ts.blobStore.driver.List tagsPath).1 = .error e →
      (∀ p, e ≠ .PathNotFoundError p) → (ts.Enumerate tags last).1 = (tags, 0, some e) := by
    intro e h hnp
    cases e <;>
      first | exact absurd rfl (hnp _) | simp only [tagStore.Enumerate, hne, if_false, hpath, h]
  refine ⟨h1, h2, fun hdrv => ⟨fun hE => ?_, fun ⟨p, hp⟩ => by rw [h1 p hp]⟩⟩
  cases hl : (ts.blobStore.driver.List tagsPath).1 with
  | ok entries =>
    exfalso
    have hE' : (tagStore.Enumerate.loop tags last (sortStrings entries) []).2.2
        = some (.ErrRepositoryUnknown ts.repository) := by
      simpa only [tagStore.Enumerate, hne, if_false, hpath, hl] using hE
    rcases loop_error tags last (sortStrings entries) [] with h | h
    · rw [h] at hE'; cases hE'
    · rw [h] at hE'; cases hE'
  | error e =>
    by_cases hp : ∃ p, e = .PathNotFoundError p
    · obtain ⟨p, rfl⟩ := hp
      exact ⟨p, rfl⟩
    · exfalso
      have hnp : ∀ p, e ≠ .PathNotFoundError p := fun p h => hp ⟨p, h⟩
      rw [h2 e hl hnp] at hE
      simp only [Option.some.injEq] at hE
      exact hdrv ts.repository (by rw [hl, hE])

/-- Witness of C15: a fresh store, where the tag directory does not exist, with a buffer
of five; and a store whose listing fails with another error. -/
theorem C15_enumerate_missing_repository_witness :
    (testTagStore.Enumerate (List.replicate 5 "") "").1
        = (List.replicate 5 "", 0, some (.ErrRepositoryUnknown "a/b"))
      ∧ ((testTagStore.withFaults [some (.New "connection reset")]).Enumerate
          (List.replicate 5 "") "").1
        = (List.replicate 5 "", 0, some (.New "connection reset"))
      ∧ ((testTagStore.Enumerate (List.replicate 5 "") "").1.2.2
          = some (.ErrRepositoryUnknown "a/b") ↔
        ∃ p, (testTagStore.blobStore.driver.List alphabetPath).1
          = .error (.PathNotFoundError p)) :=
  ⟨(C15_enumerate_missing_repository testTagStore (List.replicate 5 "") "" alphabetPath
      (by decide) rfl).1 "/docker/registry/v2/repositories/a/b/_manifests/tags" (by decide),
    (C15_enumerate_missing_repository (testTagStore.withFaults [some (.New "connection reset")])
      (List.replicate 5 "") "" alphabetPath (by decide) rfl).2.1 (.New "connection reset")
      (by decide) (fun p h => by cases h),
    (C15_enumerate_missing_repository testTagStore (List.replicate 5 "") "" alphabetPath
      (by decide) rfl).2.2 (fun name h => by
        have hl : (testTagStore.blobStore.driver.List alphabetPath).1
            = .error (.PathNotFoundError "/docker/registry/v2/repositories/a/b/_manifests/tags") := by
          decide
        rw [hl] at h
        cases h)⟩

/-- C20. A buffer without capacity is an error: on every store, also one without the
repository, and for every cursor, `tagStore.Enumerate` with an empty buffer fails with
the error `no space in slice` and `n = 0`; the backing store is not consulted, the store
and the answers it still owes are as before; the result is neither a page, nor `io.EOF`,
nor `ErrRepositoryUnknown`. -/
theorem C20_enumerate_zero_capacity (ts : tagStore) (last : String) :
    ts.Enumerate [] last = (([], 0, some (.New "no space in slice")), ts)
      ∧ (ts.Enumerate [] last).1.2.2 ≠ none
      ∧ (ts.Enumerate [] last).1.2.2 ≠ some .EOF
      ∧ (ts.Enumerate [] last).1.2.2 ≠ some (.ErrRepositoryUnknown ts.repository) := by
  have h : ts.Enumerate [] last = (([], 0, some (.New "no space in slice")), ts) := rfl
  rw [h]
  refine ⟨rfl, ?_, ?_, ?_⟩ <;> intro h' <;> cases h'

/-! ## The tag listing endpoint -/

theorem getElem?_append_last (acc page : List String) (l : String)
    (hl : page.getLast? = some l) :
    (acc ++ page)[acc.length + page.length - 1]? = some l := by
  have hne : page ≠ [] := by
    intro h; rw [h] at hl; cases hl
  have h1 : (acc ++ page).getLast? = some l := by
    rw [List.getLast?_append_of_ne_nil acc hne]; exact hl
  rw [List.getLast?_eq_getElem?, List.length_append] at h1
  exact h1

theorem GetTags_loop_from (ts : tagStore) (tagsPath : Path) (dir : String)
    (names entries : List String)
    (hpath : pathFor (.manifestTagPathSpec ts.repository "") = .ok tagsPath)
    (hquiet : ts.blobStore.driver.faults = [])
    (hlist : (ts.blobStore.driver.List tagsPath).1 = .ok entries)
    (hperm : entries.Perm (names.map (fun n => dir ++ "/" ++ n)))
    (hnodup : names.Nodup)
    (hslash : ∀ n ∈ names, '/' ∉ n.data) :
    ∀ (fuel : Nat) (last : String) (acc : List String),
      ((sortStrings names).filter (fun n => stringLess last n)).length < fuel →
      ∃ pad, tagsHandler.GetTags.loop tagStore.service fuel ts acc acc.length last
        = some (.ok (acc ++ (sortStrings names).filter (fun n => stringLess last n) ++ pad,
            acc.length + ((sortStrings names).filter (fun n => stringLess last n)).length),
            ts) := by
  have hlist' : ts.blobStore.driver.List tagsPath = (.ok entries, ts.blobStore.driver) :=
    Prod.ext hlist (driverList_quiet ts.blobStore.driver tagsPath hquiet)
  have hbuf : (List.replicate 64 "").length = 64 := List.length_replicate _ _
  have hts : ({ ts with blobStore := { driver := ts.blobStore.driver } } : tagStore) = ts := rfl
  intro fuel
  induction fuel with
  | zero => intro last acc h; omega
  | succ fuel ih =>
    intro last acc hfuel
    rcases Nat.lt_or_ge 64
      ((sortStrings names).filter (fun n => stringLess last n)).length with hgt | hle
    · have hE := Enumerate_listed_more ts tagsPath ts.blobStore.driver dir names entries
        (List.replicate 64 "") last (by rw [hbuf]; decide) hpath hlist' hperm hslash
        (by rw [hbuf]; exact hgt)
      rw [hbuf, hts] at hE
      have hstrict : ((sortStrings names).filter (fun n => stringLess last n)).Sorted
          (fun a b => a < b) := (sortStrings_strict hnodup).filter _
      have hlen2 : (((sortStrings names).filter (fun n => stringLess last n)).take 64).length
          = 64 := by
        rw [List.length_take]; omega
      have hne : ((sortStrings names).filter (fun n => stringLess last n)).take 64 ≠ [] := by
        intro h
        rw [h] at hlen2
        simp at hlen2
      obtain ⟨l, hl⟩ : ∃ l, (((sortStrings names).filter
          (fun n => stringLess last n)).take 64).getLast? = some l :=
        ⟨_, List.getLast?_eq_getLast _ hne⟩
      have hlF : l ∈ (sortStrings names).filter (fun n => stringLess last n) := by
        have h1 := List.dropLast_append_getLast? l hl
        have : l ∈ ((sortStrings names).filter (fun n => stringLess last n)).take 64 := by
          rw [← h1]; exact List.mem_append_right _ (List.mem_singleton_self l)
        exact List.mem_of_mem_take this
      have hnext : (sortStrings names).filter (fun n => stringLess l n)
          = ((sortStrings names).filter (fun n => stringLess last n)).drop 64 := by
        rw [filter_narrow (sortStrings names) last l (List.mem_filter.1 hlF).2]
        exact filter_after_last hstrict 64 l hl
      have hfuel' : ((sortStrings names).filter (fun n => stringLess l n)).length < fuel := by
        rw [hnext, List.length_drop]; omega
      have hidx : (acc ++ ((sortStrings names).filter (fun n => stringLess last n)).take 64)[
          acc.length + 64 - 1]? = some l := by
        have := getElem?_append_last acc _ l hl
        rw [hlen2] at this
        exact this
      obtain ⟨pad, hp⟩ := ih l
        (acc ++ ((sortStrings names).filter (fun n => stringLess last n)).take 64) hfuel'
      refine ⟨pad, ?_⟩
      have hstep : tagsHandler.GetTags.loop tagStore.service (fuel + 1) ts acc acc.length last
          = tagsHandler.GetTags.loop tagStore.service fuel ts
              (acc ++ ((sortStrings names).filter (fun n => stringLess last n)).take 64)
              (acc.length + 64) l := by
        have hE' : tagStore.service.Enumerate ts (List.replicate 64 "") last
            = ((((sortStrings names).filter (fun n => stringLess last n)).take 64, 64, none),
                ts) := hE
        have hnz : ¬ acc.length + 64 = 0 := by omega
        simp only [tagsHandler.GetTags.loop, hE', hnz, if_false, hidx]
      rw [hstep]
      have hlen3 : (acc ++ ((sortStrings names).filter (fun n => stringLess last n)).take
          64).length = acc.length + 64 := by
        rw [List.length_append, hlen2]
      rw [hlen3] at hp
      rw [hp, hnext, List.length_drop]
      have e1 : acc ++ ((sortStrings names).filter (fun n => stringLess last n)).take 64
          ++ ((sortStrings names).filter (fun n => stringLess last n)).drop 64
          = acc ++ (sortStrings names).filter (fun n => stringLess last n) := by
        rw [List.append_assoc, List.take_append_drop]
      have e2 : acc.length + 64
          + (((sortStrings names).filter (fun n => stringLess last n)).length - 64)
          = acc.length + ((sortStrings names).filter (fun n => stringLess last n)).length := by
        omega
      rw [e1, e2]
    · have hE := Enumerate_listed_last ts tagsPath ts.blobStore.driver dir names entries
        (List.replicate 64 "") last (by rw [hbuf]; decide) hpath hlist' hperm hslash
        (by rw [hbuf]; exact hle)
      rw [hts] at hE
      have hE' : tagStore.service.Enumerate ts (List.replicate 64 "") last
          = (((sortStrings names).filter (fun n => stringLess last n)
              ++ (List.replicate 64 "").drop
                ((sortStrings names).filter (fun n => stringLess last n)).length,
              ((sortStrings names).filter (fun n => stringLess last n)).length,
              some Error.EOF), ts) := hE
      refine ⟨(List.replicate 64 "").drop
        ((sortStrings names).filter (fun n => stringLess last n)).length, ?_⟩
      simp only [tagsHandler.GetTags.loop, hE', List.append_assoc]

/-- C17. The tag listing endpoint: for a repository whose listing succeeds with `k ≥ 0`
distinct non-empty tag names, the accumulation loop of `GetTags` (buffers of 64, cursor
the last name returned) ends, and the emitted list `allTags[0:tagCount]` is the `k` tag
names in strictly increasing order, each once, without empty padding entries. -/
theorem C17_get_tags_lists_all (ts : tagStore) (tagsPath : Path) (dir : String)
    (names entries : List String) (fuel : Nat)
    (hpath : pathFor (.manifestTagPathSpec ts.repository "") = .ok tagsPath)
    (hquiet : ts.blobStore.driver.faults = [])
    (hlist : (ts.blobStore.driver.List tagsPath).1 = .ok entries)
    (hperm : entries.Perm (names.map (fun n => dir ++ "/" ++ n)))
    (hnodup : names.Nodup)
    (hvalid : ∀ n ∈ names, n ≠ "" ∧ '/' ∉ n.data)
    (hfuel : names.length < fuel) :
    tagsHandler.GetTags tagStore.service ts.repository fuel ts
        = some (.ok { Name := ts.repository, Tags := sortStrings names }, ts)
      ∧ (sortStrings names).Pairwise (fun a b => stringLess a b = true)
      ∧ (sortStrings names).Perm names
      ∧ (sortStrings names).length = names.length
      ∧ "" ∉ sortStrings names := by
  have hall : (sortStrings names).filter (fun n => stringLess "" n) = sortStrings names :=
    List.filter_eq_self.2 (fun n hn =>
      stringLess_empty n (hvalid n ((sortStrings_perm names).mem_iff.1 hn)).1)
  have hlen : (sortStrings names).length = names.length := (sortStrings_perm names).length_eq
  obtain ⟨pad, hp⟩ := GetTags_loop_from ts tagsPath dir names entries hpath hquiet hlist hperm
    hnodup (fun n hn => (hvalid n hn).2) fuel "" [] (by rw [hall, hlen]; exact hfuel)
  rw [hall] at hp
  simp only [List.length_nil, List.nil_append, Nat.zero_add] at hp
  refine ⟨?_, (sortStrings_strict hnodup).imp (fun {a b} h => (stringLess_iff a b).2 h),
    sortStrings_perm names, hlen, ?_⟩
  · have hle : (sortStrings names).length ≤ (sortStrings names ++ pad).length := by
      rw [List.length_append]; omega
    simp only [tagsHandler.GetTags, hp, hle, if_true, List.take_left]
  · intro h
    exact (hvalid "" ((sortStrings_perm names).mem_iff.1 h)).1 rfl

set_option maxRecDepth 100000 in
theorem wideStore_listing :
    (wideStore.blobStore.driver.List alphabetPath).1
      = .ok (wideNames.map (fun n => alphabetPath.render ++ "/" ++ n)) := by decide

set_option maxRecDepth 100000 in
theorem wideNames_valid : wideNames.Nodup ∧ ∀ n ∈ wideNames, n ≠ "" ∧ '/' ∉ n.data := by
  decide

/-- Witness of C17: the store of `TestTagEnumerate` (26 tags), a store whose only tag was
removed again (the listing succeeds with no name), and a store with 64 tags, one full
buffer. -/
theorem C17_get_tags_lists_all_witness :
    (tagsHandler.GetTags tagStore.service alphabetStore.repository 27 alphabetStore
        = some (.ok { Name := alphabetStore.repository, Tags := sortStrings alphabet },
            alphabetStore)
      ∧ (sortStrings alphabet).Pairwise (fun a b => stringLess a b = true)
      ∧ (sortStrings alphabet).Perm alphabet
      ∧ (sortStrings alphabet).length = alphabet.length
      ∧ "" ∉ sortStrings alphabet)
    ∧ (tagsHandler.GetTags tagStore.service emptiedStore.repository 1 emptiedStore
        = some (.ok { Name := emptiedStore.repository, Tags := sortStrings [] }, emptiedStore)
      ∧ (sortStrings []).Pairwise (fun a b => stringLess a b = true)
      ∧ (sortStrings []).Perm []
      ∧ (sortStrings []).length = ([] : List String).length
      ∧ "" ∉ sortStrings [])
    ∧ (tagsHandler.GetTags tagStore.service wideStore.repository 65 wideStore
        = some (.ok { Name := wideStore.repository, Tags := sortStrings wideNames }, wideStore)
      ∧ (sortStrings wideNames).Pairwise (fun a b => stringLess a b = true)
      ∧ (sortStrings wideNames).Perm wideNames
      ∧ (sortStrings wideNames).length = wideNames.length
      ∧ "" ∉ sortStrings wideNames) :=
  ⟨C17_get_tags_lists_all alphabetStore alphabetPath alphabetPath.render alphabet
      (alphabet.map (fun n => alphabetPath.render ++ "/" ++ n)) 27
      alphabetStore_path alphabetStore_facts.2.1 alphabetStore_facts.2.2
      (List.Perm.refl _) (by decide) (by decide) (by decide),
    C17_get_tags_lists_all emptiedStore alphabetPath alphabetPath.render [] [] 1
      (by decide) (by decide) (by decide) (List.Perm.refl _) (by decide) (by decide)
      (by decide),
    C17_get_tags_lists_all wideStore alphabetPath alphabetPath.render wideNames
      (wideNames.map (fun n => alphabetPath.render ++ "/" ++ n)) 65
      rfl rfl wideStore_listing (List.Perm.refl _) wideNames_valid.1 wideNames_valid.2
      (by decide)⟩

/-! ## The effect of the calls on the backing store -/

end distribution
